import Mathlib

/-!
Verification of the vertexvm WebAssembly virtual machine (Go) against its
natural-language specification.  The Go source is shallowly embedded:
machine integers become `Nat`/`Int` with explicit wrapping at the word
size, fallible code returns `Option`/`Except`, mutable state is passed
explicitly, and Go panics become dedicated result constructors.
-/

/-! ## Machine integer helpers (Go uint32/int32/uint64/int64) -/

/-- Reinterpret a 64-bit unsigned pattern as a Go `int64`. -/
def toInt64 (n : Nat) : Int :=
  if n < 2 ^ 63 then (n : Int) else (n : Int) - 2 ^ 64

/-- Bit pattern (as `Nat`) of an integer reduced mod `2^64`, i.e. Go `uint64(x)`. -/
def toUint64 (i : Int) : Nat :=
  (i % 2 ^ 64).toNat

/-- Reinterpret a 32-bit unsigned pattern as a Go `int32`. -/
def toInt32 (n : Nat) : Int :=
  if n < 2 ^ 31 then (n : Int) else (n : Int) - 2 ^ 32

/-- Bit pattern (as `Nat`) of an integer reduced mod `2^32`, i.e. Go `uint32(x)`. -/
def toUint32 (i : Int) : Nat :=
  (i % 2 ^ 32).toNat

/-- Go `uint64` addition (wraps at `2^64`). -/
def add64 (a b : Nat) : Nat :=
  (a + b) % 2 ^ 64

/-- Go `uint64` subtraction (wraps at `2^64`); both arguments below `2^64`. -/
def sub64 (a b : Nat) : Nat :=
  (a + 2 ^ 64 - b) % 2 ^ 64

/-- Go `int64` addition (two's-complement wrap at `2^64`). -/
def addInt64 (x y : Int) : Int :=
  toInt64 (toUint64 (x + y))

/-- Source constant `wasmPageSize = 64 * 1024` (vm.go). -/
def wasmPageSize : Nat := 64 * 1024

/-- Source constant `maxSize = math.MaxUint32` (vm.go). -/
def maxSize : Nat := 4294967295

/-! ## ExecError taxonomy (error.go) and the Invoke recover discipline -/

/-- Trap kinds from the `ExecError` list in error.go (only those the claims
touch are enumerated). -/
inductive ExecErr where
  | integerDivisionByZero
  | invalidIntConversion
  | integerOverflow
  | mismatchedFuncSig
  | outOfBoundTableAccess
  | outOfBoundMemoryAccess
  | unknownReturnType
  deriving DecidableEq, Repr

/-- The message text carried by each `ExecError` (error.go). -/
def ExecErr.message : ExecErr → String
  | .integerDivisionByZero => "integer divide by zero"
  | .invalidIntConversion => "invalid conversion to integer"
  | .integerOverflow => "integer overflow"
  | .mismatchedFuncSig => "indirect call type mismatch"
  | .outOfBoundTableAccess => "out of bounds table access"
  | .outOfBoundMemoryAccess => "out of bounds memory access"
  | .unknownReturnType => "unknown block return type"

/-- A Go panic observed at the `Invoke` boundary: either a `*ExecError`
value or some other runtime error (e.g. a slice-bounds error). -/
inductive GoPanic where
  | execError (e : ExecErr)
  | runtimeError
  deriving DecidableEq

/-- The `defer`/`recover` in `Invoke` (vm.go): an `*ExecError` panic is
converted to a returned error, any other panic is re-raised (`panic(r)`),
hence yields no returned error value. -/
def recoverToError : GoPanic → Option ExecErr
  | .execError e => some e
  | .runtimeError => none

/-! ## Signed division (vm.go, I32DivS / I64DivS cases) -/

/-- Result of one binary arithmetic opcode: either a pushed 64-bit slot or
a trap. -/
inductive DivOutcome where
  | ok (c : Nat)
  | trap (e : ExecErr)
  deriving DecidableEq, Repr

/-- The `opcode.I32DivS` case of `interpret` (vm.go lines 513-520).
`a` and `b` are the popped operands as `uint32` patterns.  Note the source
literally compares `b == math.MaxInt32` (2147483647).  Go defines
`INT_MIN / -1 = INT_MIN` for `int32`, which the `% 2^32` wrap reproduces. -/
def i32DivS (a b : Nat) : DivOutcome :=
  if b = 0 then .trap .integerDivisionByZero
  else if a = 2147483648 ∧ b = 2147483647 then .trap .integerOverflow
  else .ok (toUint32 (Int.tdiv (toInt32 a) (toInt32 b)))

/-- The `opcode.I64DivS` case of `interpret` (vm.go lines 642-649); the
source compares `a == math.MaxInt64+1 && b == math.MaxInt64`. -/
def i64DivS (a b : Nat) : DivOutcome :=
  if b = 0 then .trap .integerDivisionByZero
  else if a = 9223372036854775808 ∧ b = 9223372036854775807 then .trap .integerOverflow
  else .ok (toUint64 (Int.tdiv (toInt64 a) (toInt64 b)))

/-! ## Gas accounting (vm.go BurnGas; Gas struct) -/

/-- The `Gas` struct: `{Limit, Used}` as `uint64` counters. -/
structure Gas where
  Limit : Nat
  Used : Nat
  deriving DecidableEq, Repr

/-- `BurnGas` (vm.go lines 174-185).  Returns `(true, g')` on success and
`(false, g)` (state untouched) when the remaining gas cannot cover the
cost.  `remainingGas := vm.gas.Limit - vm.gas.Used` is `uint64`
subtraction, hence the wrap in `sub64`. -/
def BurnGas (g : Gas) (cost : Nat) : Bool × Gas :=
  if 0 < cost then
    if sub64 g.Limit g.Used < cost then (false, g)
    else (true, { Limit := g.Limit, Used := add64 g.Used cost })
  else (true, g)

/-! ## Linear memory and memory.grow (vm.go MemoryGrow case) -/

/-- Linear memory: a byte length together with the byte at each index
(indices `≥ len` are never read by the embedded operations). -/
structure VMem where
  len : Nat
  byteAt : Nat → Nat

/-- The `Limits` record of the wasm package (source order `Flag`, `Min`,
`Max`): `Flag = 1` means a maximum is declared in `Max`. -/
structure Limits where
  Flag : Nat
  Min : Nat
  Max : Nat
  deriving DecidableEq, Repr

/-- `vm.memory = append(vm.memory, make([]byte, n*wasmPageSize)...)`:
append `n` zeroed pages. -/
def growMem (mem : VMem) (n : Nat) : VMem :=
  { len := mem.len + n * wasmPageSize
    byteAt := fun i => if i < mem.len then mem.byteAt i else 0 }

/-- The outcome of one `memory.grow` step: the pushed slot value with the
resulting memory and gas, or the out-of-gas error return (which also
carries the memory as it stands at that point). -/
inductive GrowOutcome where
  | pushed (v : Nat) (mem : VMem) (g : Gas)
  | outOfGas (mem : VMem) (g : Gas)

/-- Memory length in the post-state of a grow step. -/
def GrowOutcome.mem : GrowOutcome → VMem
  | .pushed _ m _ => m
  | .outOfGas m _ => m

/-- Gas in the post-state of a grow step. -/
def GrowOutcome.gas : GrowOutcome → Gas
  | .pushed _ _ g => g
  | .outOfGas _ g => g

/-- The pushed slot, if the step did not fail with out-of-gas. -/
def GrowOutcome.pushedVal : GrowOutcome → Option Nat
  | .pushed v _ _ => some v
  | .outOfGas _ _ => none

/-- Whether the step returned the out-of-gas error. -/
def GrowOutcome.isOutOfGas : GrowOutcome → Bool
  | .pushed _ _ _ => false
  | .outOfGas _ _ => true

/-- The `opcode.MemoryGrow` case of `interpret` (vm.go lines 408-425).
`popped` is the popped `uint64` slot; `n := int(vm.pop())` reinterprets it
as `int64`.  `mallocCost` stands for the gas policy's
`GetCostForMalloc`.  Note the source appends the pages BEFORE charging
gas, and only then calls `BurnGas`; on a failed charge `interpret`
returns the error with the memory already grown. -/
def MemoryGrow (lim : Limits) (mallocCost : Int → Nat) (mem : VMem) (g : Gas)
    (popped : Nat) : GrowOutcome :=
  let pagesN : Nat := mem.len / wasmPageSize
  let pages : Int := (pagesN : Int)
  let n : Int := toInt64 popped
  let maxPagesN : Nat := maxSize / wasmPageSize
  let maxPages0 : Int := (maxPagesN : Int)
  let maxPages : Int :=
    if lim.Flag = 1 ∧ maxPages0 > (lim.Max : Int) then (lim.Max : Int) else maxPages0
  if pages ≤ addInt64 pages n ∧ addInt64 pages n ≤ maxPages then
    let mem' := growMem mem n.toNat
    match BurnGas g (mallocCost n) with
    | (false, g') => .outOfGas mem' g'
    | (true, g') => .pushed (toUint32 pages) mem' g'
  else
    .pushed (toUint32 (-1)) mem g

/-! ## MemSize / MemWrite / MemRead (vm.go lines 1260-1285) -/

/-- `MemSize` returns `len(vm.memory)`. -/
def MemSize (mem : VMem) : Nat := mem.len

/-- Go slice expression `b[:k]`: panics (`none`) when `k < 0` or `k`
exceeds the slice length (`cap` coincides with the length for the buffers
involved here; in the one branch that shortens, `k < len(b)` always). -/
def goSliceTake (b : List Nat) (k : Int) : Option (List Nat) :=
  if k < 0 ∨ (b.length : Int) < k then none else some (b.take k.toNat)

/-- `copy(vm.memory[offset:], b)`: panics (`none`) when `offset` is
negative or past the end of memory; otherwise writes `b` clipped to the
memory length and leaves the length unchanged. -/
def copyIntoMem (mem : VMem) (b : List Nat) (offset : Int) : Option VMem :=
  if offset < 0 ∨ (mem.len : Int) < offset then none
  else some
    { len := mem.len
      byteAt := fun i =>
        if offset.toNat ≤ i ∧ i < offset.toNat + b.length ∧ i < mem.len then
          b.getD (i - offset.toNat) 0
        else mem.byteAt i }

/-- Result of `MemWrite`: the returned byte count, whether
`io.ErrShortWrite` was returned, and the updated memory; or a Go
slice-bounds runtime panic. -/
inductive WriteResult where
  | ok (transferred : Nat) (short : Bool) (mem : VMem)
  | slicePanic

/-- Result of `MemRead`: the bytes copied into the caller's buffer, the
returned byte count, and whether `io.ErrShortBuffer` was returned; or a
Go slice-bounds runtime panic. -/
inductive ReadResult where
  | ok (data : List Nat) (transferred : Nat) (short : Bool)
  | slicePanic
  deriving DecidableEq

/-- `MemWrite` (vm.go lines 1266-1274). -/
def MemWrite (mem : VMem) (b : List Nat) (offset : Int) : WriteResult :=
  if (mem.len : Int) < offset + b.length then
    match goSliceTake b ((mem.len : Int) - offset) with
    | none => .slicePanic
    | some b' =>
      match copyIntoMem mem b' offset with
      | none => .slicePanic
      | some mem' => .ok b'.length true mem'
  else
    match copyIntoMem mem b offset with
    | none => .slicePanic
    | some mem' => .ok b.length false mem'

/-- The bytes `vm.memory[offset : offset+k]`. -/
def readMemBytes (mem : VMem) (offset k : Nat) : List Nat :=
  (List.range k).map (fun i => mem.byteAt (offset + i))

/-- `MemRead` (vm.go lines 1277-1285); `bufLen` is the length of the
caller's buffer `b`. -/
def MemRead (mem : VMem) (bufLen : Nat) (offset : Int) : ReadResult :=
  if (mem.len : Int) < offset + bufLen then
    let k : Int := (mem.len : Int) - offset
    if k < 0 ∨ (bufLen : Int) < k then .slicePanic
    else if offset < 0 then .slicePanic
    else .ok (readMemBytes mem offset.toNat k.toNat) k.toNat true
  else
    if offset < 0 then .slicePanic
    else .ok (readMemBytes mem offset.toNat bufLen) bufLen false

/-! ## castReturnValue (cast.go) -/

/-- `castReturnValue` (cast.go): cast a 64-bit slot to the declared return
type; `retType` is the `wasm.ValueType` byte (`0x7f` i32, `0x7e` i64,
`0x7d` f32, `0x7c` f64); an unknown type panics (`none`). -/
def castReturnValue (retVal : Nat) (retType : Nat) : Option Nat :=
  if retType = 0x7f ∨ retType = 0x7d then some (retVal % 2 ^ 32)
  else if retType = 0x7e ∨ retType = 0x7c then some retVal
  else none

/-! ## LEB128 decoding (leb128/read.go) and the I32Const push -/

/-- Arithmetic right shift by one of a 64-bit pattern (Go `int64` `>> 1`). -/
def arithShr1 (p : Nat) : Nat :=
  if 2 ^ 63 ≤ p then p / 2 + 2 ^ 63 else p / 2

/-- The byte loop of `leb128.Read`: accumulates `result` and `sign` as
64-bit `int64` patterns; stops at the first byte without the continuation
bit; `none` models the "Unsigned LEB at byte overflow" error. -/
def lebLoop : List Nat → Nat → Nat → Nat → Nat → Nat → Option (Nat × Nat × Nat)
  | [], _, _, bytecnt, result, sign => some (bytecnt, result, sign)
  | cur :: rest, maxbit, shift, bytecnt, result, sign =>
    let result' := result ||| (cur % 128 * 2 ^ shift % 2 ^ 64)
    let sign' := sign * 128 % 2 ^ 64
    let bytecnt' := bytecnt + 1
    if cur % 256 < 128 then some (bytecnt', result', sign')
    else if bytecnt' > (maxbit + 6) / 7 then none
    else lebLoop rest maxbit (shift + 7) bytecnt' result' sign'

/-- `leb128.Read` (leb128/read.go): returns the byte count and the decoded
value as a Go `int64`; `none` models the error returns. -/
def lebRead (b : List Nat) (maxbit : Nat) (hasSign : Bool) : Option (Nat × Int) :=
  if maxbit > 64 then none
  else
    match lebLoop b maxbit 0 0 0 (2 ^ 64 - 1) with
    | none => none
    | some (bytecnt, result, sign) =>
      let result' :=
        if hasSign = true ∧ arithShr1 sign &&& result ≠ 0 then result ||| sign
        else result
      some (bytecnt, toInt64 result')

/-- The `opcode.I32Const` case of `interpret` (vm.go lines 427-429):
`val := frame.readLEB(32, true); vm.push(uint64(val))`, where `readLEB`
returns the `int64` from `leb128.Read` over the instruction bytes. -/
def i32ConstPush (bs : List Nat) : Option Nat :=
  (lebRead bs 32 true).map (fun r => toUint64 r.2)

/-! ## Claim C1 -/

/-- C1 (code bug exhibit).  The claim (and the Wasm standard the spec
transcribes) requires `i32.div_s`/`i64.div_s` to trap "integer overflow"
exactly on `(INT_MIN, -1)`.  The source instead guards
`a == MAX_INT+1 && b == MAX_INT`: on `(INT_MIN, -1)` (second operand
pattern `0xFFFFFFFF`) no trap fires and the wrapped quotient `INT_MIN` is
pushed, while on `(INT_MIN, MAX_INT)` — whose true quotient `-1` is
representable — the code traps "integer overflow".  Zero divisors do trap
"integer divide by zero" as claimed. -/
theorem vm_c1_divs_bug :
    i32DivS 2147483648 4294967295 = .ok 2147483648
      ∧ i32DivS 2147483648 2147483647 = .trap .integerOverflow
      ∧ i64DivS 9223372036854775808 18446744073709551615 = .ok 9223372036854775808
      ∧ i64DivS 9223372036854775808 9223372036854775807 = .trap .integerOverflow
      ∧ (∀ a, i32DivS a 0 = .trap .integerDivisionByZero)
      ∧ (∀ a, i64DivS a 0 = .trap .integerDivisionByZero)
      ∧ ExecErr.message .integerOverflow = "integer overflow"
      ∧ ExecErr.message .integerDivisionByZero = "integer divide by zero" := by
  refine ⟨by decide, by decide, ?_, by decide, ?_, ?_, rfl, rfl⟩
  · show i64DivS _ _ = _
    simp [i64DivS, toInt64, toUint64]
  · intro a
    simp [i32DivS]
  · intro a
    simp [i64DivS]

/-! ## Claim C3 -/

/-- C3 (confirmed).  For `BurnGas` — the single mutation point of the gas
counter in the interpreter (every per-opcode charge and every allocation
charge goes through it) — assuming the construction-time invariant
`Used ≤ Limit` and 64-bit operands: a successful charge adds exactly the
cost, keeps `Used ≤ Limit` and never decreases `Used`; a charge that
would exceed the limit fails with the out-of-gas error and returns the
gas state unchanged. -/
theorem vm_c3_gas_invariant (g : Gas) (cost : Nat)
    (hinv : g.Used ≤ g.Limit) (hlim : g.Limit < 2 ^ 64) (hcost : cost < 2 ^ 64) :
    (∀ g', BurnGas g cost = (true, g') →
      g'.Used = g.Used + cost ∧ g'.Used ≤ g'.Limit ∧ g.Used ≤ g'.Used ∧ g'.Limit = g.Limit)
      ∧ (g.Limit < g.Used + cost → BurnGas g cost = (false, g)) := by
  have hused : g.Used < 2 ^ 64 := lt_of_le_of_lt hinv hlim
  have hkey : BurnGas g cost =
      if g.Limit < g.Used + cost then (false, g)
      else (true, { Limit := g.Limit, Used := g.Used + cost }) := by
    unfold BurnGas sub64 add64
    by_cases h1 : 0 < cost
    · rw [if_pos h1]
      have hsub : (g.Limit + 2 ^ 64 - g.Used) % 2 ^ 64 = g.Limit - g.Used := by omega
      rw [hsub]
      by_cases h2 : g.Limit - g.Used < cost
      · rw [if_pos h2, if_pos (by omega)]
      · rw [if_neg h2, if_neg (by omega)]
        have hmod : (g.Used + cost) % 2 ^ 64 = g.Used + cost := by omega
        rw [hmod]
    · rw [if_neg h1, if_neg (by omega)]
      have hz : cost = 0 := by omega
      subst hz
      rfl
  constructor
  · intro g' hg'
    rw [hkey] at hg'
    split at hg'
    · exact absurd (congrArg Prod.fst hg') (by simp)
    · rename_i hle
      simp only [Prod.mk.injEq, true_and] at hg'
      subst hg'
      refine ⟨rfl, by simpa using by omega, by simp, rfl⟩
  · intro hover
    rw [hkey, if_pos hover]

/-- Witness for C3 at a concrete gas state. -/
theorem vm_c3_gas_invariant_witness :
    BurnGas ⟨10, 8⟩ 5 = (false, ⟨10, 8⟩) :=
  (vm_c3_gas_invariant ⟨10, 8⟩ 5 (by decide) (by decide) (by decide)).2 (by decide)

/-! ## memory.grow: supporting lemmas -/

/-- The wrapped success test of `MemoryGrow` (`pages+n >= pages &&
pages+n <= maxPages` in Go `int` arithmetic) is equivalent to the plain
condition `0 ≤ n ∧ pages + n ≤ maxPages` when `pages` is small and
`maxPages ≤ 65535`. -/
theorem growCond_iff (pagesN popped : Nat) (maxPages : Int)
    (hp : pagesN < 2 ^ 47) (hpop : popped < 2 ^ 64) (hmaxU : maxPages ≤ 65535) :
    ((pagesN : Int) ≤ addInt64 pagesN (toInt64 popped)
        ∧ addInt64 pagesN (toInt64 popped) ≤ maxPages)
      ↔ (0 ≤ toInt64 popped ∧ (pagesN : Int) + toInt64 popped ≤ maxPages) := by
  unfold addInt64 toInt64 toUint64
  split_ifs <;> omega

/-- A failed `BurnGas` returns the pair `(false, g)` with the gas state
untouched. -/
theorem BurnGas_false_eq (g : Gas) (cost : Nat) (h : (BurnGas g cost).1 = false) :
    BurnGas g cost = (false, g) := by
  unfold BurnGas at h ⊢
  split_ifs at h ⊢
  rfl

/-- Characterization of one `memory.grow` step in terms of the plain
success condition.  The effective page cap is
`min(declared max when Flag = 1, 65535)` because the source computes
`maxSize / wasmPageSize = 65535`. -/
theorem MemoryGrow_eq (lim : Limits) (mc : Int → Nat) (mem : VMem) (g : Gas)
    (popped : Nat) (hlen : mem.len < 2 ^ 63) (hpop : popped < 2 ^ 64) :
    MemoryGrow lim mc mem g popped =
      if 0 ≤ toInt64 popped ∧ ((mem.len / wasmPageSize : Nat) : Int) + toInt64 popped ≤
          (if lim.Flag = 1 ∧ (lim.Max : Int) < 65535 then (lim.Max : Int) else 65535) then
        match BurnGas g (mc (toInt64 popped)) with
        | (false, g') => .outOfGas (growMem mem (toInt64 popped).toNat) g'
        | (true, g') => .pushed (mem.len / wasmPageSize) (growMem mem (toInt64 popped).toNat) g'
      else .pushed 4294967295 mem g := by
  have hmaxc : ((maxSize / wasmPageSize : Nat) : Int) = 65535 := by
    norm_num [maxSize, wasmPageSize]
  have hpq : mem.len / wasmPageSize < 2 ^ 47 := by
    simp only [wasmPageSize]
    omega
  simp only [MemoryGrow, hmaxc, gt_iff_lt]
  have hcap : (if lim.Flag = 1 ∧ (lim.Max : Int) < 65535 then (lim.Max : Int) else 65535) ≤ 65535 := by
    split_ifs with h
    · omega
    · omega
  simp only [growCond_iff (mem.len / wasmPageSize) popped
    (if lim.Flag = 1 ∧ (lim.Max : Int) < 65535 then (lim.Max : Int) else 65535) hpq hpop hcap]
  obtain ⟨p, hpdef⟩ : ∃ q, q = mem.len / wasmPageSize := ⟨_, rfl⟩
  rw [← hpdef]
  by_cases hcond : 0 ≤ toInt64 popped ∧ (p : Int) + toInt64 popped ≤
      (if lim.Flag = 1 ∧ (lim.Max : Int) < 65535 then (lim.Max : Int) else 65535)
  · rw [if_pos hcond, if_pos hcond]
    have hpb : (p : Int) ≤ 65535 := by
      rcases hcond with ⟨hn, hle⟩
      have := le_trans hle hcap
      omega
    have hpages : toUint32 (p : Int) = p := by
      clear hcond
      unfold toUint32
      omega
    rcases hbg : BurnGas g (mc (toInt64 popped)) with ⟨b, g'⟩
    cases b
    · rfl
    · dsimp only
      rw [hpages]
  · rw [if_neg hcond, if_neg hcond]
    have : toUint32 (-1) = 4294967295 := by decide
    rw [this]

/-! ## Claim C2 -/

/-- C2 counterexample.  The claim asserts that when the per-page
allocation charge fails, "the linear memory length is the same as before
the step (no pages were appended)".  In the source the `append` happens
BEFORE `BurnGas`: at one page of memory, a grow of 1 page under a policy
charging 1024 gas per page with only 100 gas available returns the
out-of-gas error, yet the memory length after the step is 131072 = 2
pages, not the 65536 bytes it held before. -/
theorem vm_c2_counterexample :
    (MemoryGrow ⟨0, 0, 0⟩ (fun n => 1024 * n.toNat) ⟨65536, fun _ => 0⟩ ⟨100, 0⟩ 1).isOutOfGas = true
      ∧ (MemoryGrow ⟨0, 0, 0⟩ (fun n => 1024 * n.toNat) ⟨65536, fun _ => 0⟩ ⟨100, 0⟩ 1).mem.len = 131072
      ∧ (MemoryGrow ⟨0, 0, 0⟩ (fun n => 1024 * n.toNat) ⟨65536, fun _ => 0⟩ ⟨100, 0⟩ 1).mem.len ≠ 65536 := by
  refine ⟨rfl, rfl, by decide⟩

/-- C2 as amended: under a gas policy, if the plain grow condition holds
but charging `GetCostForMalloc(n)` fails, `interpret` (and hence
`Invoke`) returns the out-of-gas error with the gas counter unchanged —
but the `n` pages HAVE already been appended, so the memory length after
the failed step is the old length plus `n` pages. -/
theorem vm_c2_amended (lim : Limits) (mc : Int → Nat) (mem : VMem) (g : Gas) (popped : Nat)
    (hlen : mem.len < 2 ^ 63) (hpop : popped < 2 ^ 64)
    (hcond : 0 ≤ toInt64 popped ∧ ((mem.len / wasmPageSize : Nat) : Int) + toInt64 popped ≤
      (if lim.Flag = 1 ∧ (lim.Max : Int) < 65535 then (lim.Max : Int) else 65535))
    (hfail : (BurnGas g (mc (toInt64 popped))).1 = false) :
    MemoryGrow lim mc mem g popped = .outOfGas (growMem mem (toInt64 popped).toNat) g
      ∧ (growMem mem (toInt64 popped).toNat).len
          = mem.len + (toInt64 popped).toNat * wasmPageSize := by
  rw [MemoryGrow_eq lim mc mem g popped hlen hpop, if_pos hcond,
    BurnGas_false_eq g _ hfail]
  exact ⟨rfl, rfl⟩

/-- Witness for C2's amended theorem at the counterexample's inputs. -/
theorem vm_c2_amended_witness :
    MemoryGrow ⟨0, 0, 0⟩ (fun n => 1024 * n.toNat) ⟨65536, fun _ => 0⟩ ⟨100, 0⟩ 1
      = .outOfGas (growMem ⟨65536, fun _ => 0⟩ 1) ⟨100, 0⟩ :=
  (vm_c2_amended ⟨0, 0, 0⟩ (fun n => 1024 * n.toNat) ⟨65536, fun _ => 0⟩ ⟨100, 0⟩ 1
    (by norm_num) (by norm_num) (by constructor <;> decide) (by decide)).1

/-! ## Claim C4 -/

/-- C4 counterexample.  With no declared maximum, the claim allows growth
up to the Wasm spec cap of 65536 pages: from 1 page, growing by 65535
pages should succeed (1 + 65535 = 65536 ≤ 65536), push the previous page
count 1 and append the pages.  The source caps at
`maxSize / wasmPageSize = 65535` pages, so this grow FAILS: it pushes the
32-bit pattern of -1 (4294967295) and leaves the memory at 65536 bytes. -/
theorem vm_c4_counterexample :
    (MemoryGrow ⟨0, 0, 0⟩ (fun _ => 0) ⟨65536, fun _ => 0⟩ ⟨0, 0⟩ 65535).pushedVal = some 4294967295
      ∧ (MemoryGrow ⟨0, 0, 0⟩ (fun _ => 0) ⟨65536, fun _ => 0⟩ ⟨0, 0⟩ 65535).mem.len = 65536 := by
  exact ⟨rfl, rfl⟩

/-- C4 as amended: the page cap is `min(declared max, 65535)` when a
maximum is declared and 65535 (not the spec's 65536) otherwise.  Within
the cap, `n` zeroed pages are appended and (when the gas charge succeeds)
the previous page count is pushed; beyond it, the 32-bit pattern of -1 is
pushed and the memory is unchanged.  The memory length stays a multiple
of the 64 KiB page size in every case. -/
theorem vm_c4_amended (lim : Limits) (mc : Int → Nat) (mem : VMem) (g : Gas) (popped : Nat)
    (hmul : mem.len % wasmPageSize = 0) (hlen : mem.len < 2 ^ 63) (hpop : popped < 2 ^ 64) :
    ((0 ≤ toInt64 popped ∧ ((mem.len / wasmPageSize : Nat) : Int) + toInt64 popped ≤
        (if lim.Flag = 1 ∧ (lim.Max : Int) < 65535 then (lim.Max : Int) else 65535)) →
      (MemoryGrow lim mc mem g popped).mem.len
          = mem.len + (toInt64 popped).toNat * wasmPageSize
        ∧ (∀ i, mem.len ≤ i → (MemoryGrow lim mc mem g popped).mem.byteAt i = 0)
        ∧ ((BurnGas g (mc (toInt64 popped))).1 = true →
            (MemoryGrow lim mc mem g popped).pushedVal = some (mem.len / wasmPageSize)))
    ∧ (¬ (0 ≤ toInt64 popped ∧ ((mem.len / wasmPageSize : Nat) : Int) + toInt64 popped ≤
        (if lim.Flag = 1 ∧ (lim.Max : Int) < 65535 then (lim.Max : Int) else 65535)) →
      (MemoryGrow lim mc mem g popped).pushedVal = some 4294967295
        ∧ (MemoryGrow lim mc mem g popped).mem.len = mem.len)
    ∧ (MemoryGrow lim mc mem g popped).mem.len % wasmPageSize = 0 := by
  rw [MemoryGrow_eq lim mc mem g popped hlen hpop]
  by_cases hcond : 0 ≤ toInt64 popped ∧ ((mem.len / wasmPageSize : Nat) : Int) + toInt64 popped ≤
      (if lim.Flag = 1 ∧ (lim.Max : Int) < 65535 then (lim.Max : Int) else 65535)
  · rw [if_pos hcond]
    rcases hbg : BurnGas g (mc (toInt64 popped)) with ⟨b, g'⟩
    have hgrow : ∀ i, mem.len ≤ i → (growMem mem (toInt64 popped).toNat).byteAt i = 0 := by
      intro i hi
      simp only [growMem]
      rw [if_neg (by omega)]
    cases b
    · refine ⟨fun _ => ⟨rfl, hgrow, ?_⟩, fun hn => absurd hcond hn, ?_⟩
      · intro htrue
        exact absurd htrue (by simp)
      · show (growMem mem (toInt64 popped).toNat).len % wasmPageSize = 0
        simp only [growMem, wasmPageSize] at hmul ⊢
        omega
    · refine ⟨fun _ => ⟨rfl, hgrow, fun _ => rfl⟩, fun hn => absurd hcond hn, ?_⟩
      show (growMem mem (toInt64 popped).toNat).len % wasmPageSize = 0
      simp only [growMem, wasmPageSize] at hmul ⊢
      omega
  · rw [if_neg hcond]
    exact ⟨fun hc => absurd hc hcond, fun _ => ⟨rfl, rfl⟩, hmul⟩

/-- Witness for C4's amended theorem: growing by one page from one page
with a free gas policy succeeds, pushing the previous page count 1. -/
theorem vm_c4_amended_witness :
    (MemoryGrow ⟨0, 0, 0⟩ (fun _ => 0) ⟨65536, fun _ => 0⟩ ⟨0, 0⟩ 1).mem.len = 131072
      ∧ (MemoryGrow ⟨0, 0, 0⟩ (fun _ => 0) ⟨65536, fun _ => 0⟩ ⟨0, 0⟩ 1).pushedVal = some 1 := by
  have h := (vm_c4_amended ⟨0, 0, 0⟩ (fun _ => 0) ⟨65536, fun _ => 0⟩ ⟨0, 0⟩ 1
    (by decide) (by norm_num) (by norm_num)).1 (by constructor <;> decide)
  exact ⟨h.1, h.2.2 (by decide)⟩

/-! ## MemWrite / MemRead: panic lemmas -/

/-- An offset beyond the memory length makes `MemWrite` panic at the
`b[:vm.MemSize()-offset]` slice (negative bound). -/
theorem MemWrite_panic_past (mem : VMem) (B : List Nat) (O : Int)
    (h : (mem.len : Int) < O) : MemWrite mem B O = .slicePanic := by
  unfold MemWrite
  rw [if_pos (by omega : (mem.len : Int) < O + B.length)]
  unfold goSliceTake
  rw [if_pos (Or.inl (by omega))]

/-- A negative offset makes `MemWrite` panic at `vm.memory[offset:]`
(after the shortening, when taken, succeeded). -/
theorem MemWrite_panic_neg (mem : VMem) (B : List Nat) (O : Int)
    (h : O < 0) : MemWrite mem B O = .slicePanic := by
  unfold MemWrite
  by_cases hb : (mem.len : Int) < O + B.length
  · rw [if_pos hb]
    unfold goSliceTake
    rw [if_neg (by push_neg; omega)]
    dsimp only
    unfold copyIntoMem
    rw [if_pos (Or.inl h)]
  · rw [if_neg hb]
    unfold copyIntoMem
    rw [if_pos (Or.inl h)]

/-- An offset beyond the memory length makes `MemRead` panic at the
`b[:vm.MemSize()-offset]` slice (negative bound). -/
theorem MemRead_panic_past (mem : VMem) (bufLen : Nat) (O : Int)
    (h : (mem.len : Int) < O) : MemRead mem bufLen O = .slicePanic := by
  unfold MemRead
  rw [if_pos (by omega : (mem.len : Int) < O + bufLen)]
  rw [if_pos (Or.inl (by omega))]

/-- A negative offset makes `MemRead` panic at
`vm.memory[offset:offset+len(b)]`. -/
theorem MemRead_panic_neg (mem : VMem) (bufLen : Nat) (O : Int)
    (h : O < 0) : MemRead mem bufLen O = .slicePanic := by
  unfold MemRead
  by_cases hb : (mem.len : Int) < O + bufLen
  · rw [if_pos hb]
    rw [if_neg (by push_neg; omega), if_pos h]
  · rw [if_neg hb]
    rw [if_pos h]

/-! ## Claim C10 -/

/-- C10 (confirmed).  `MemWrite`/`MemRead` are well-defined only for
`0 ≤ offset ≤ MemSize()`: an offset that is negative or greater than the
memory length makes both operations hit a Go slice-bounds runtime panic,
which — not being an `*ExecError` — is re-raised rather than converted to
an error at the `Invoke` recover.  Conversely the short-transfer return
path (`io.ErrShortWrite` / `io.ErrShortBuffer`) is reached only with the
offset itself in bounds. -/
theorem vm_c10_oob_panic (mem : VMem) (B : List Nat) (bufLen : Nat) (O : Int) :
    ((O < 0 ∨ (MemSize mem : Int) < O) →
        MemWrite mem B O = .slicePanic ∧ MemRead mem bufLen O = .slicePanic)
      ∧ (∀ t m', MemWrite mem B O = .ok t true m' → 0 ≤ O ∧ O ≤ (MemSize mem : Int))
      ∧ (∀ d t, MemRead mem bufLen O = .ok d t true → 0 ≤ O ∧ O ≤ (MemSize mem : Int))
      ∧ recoverToError .runtimeError = none := by
  simp only [MemSize]
  refine ⟨?_, ?_, ?_, rfl⟩
  · rintro (h | h)
    · exact ⟨MemWrite_panic_neg mem B O h, MemRead_panic_neg mem bufLen O h⟩
    · exact ⟨MemWrite_panic_past mem B O h, MemRead_panic_past mem bufLen O h⟩
  · intro t m' hok
    constructor
    · by_contra hneg
      rw [MemWrite_panic_neg mem B O (by omega)] at hok
      exact WriteResult.noConfusion hok
    · by_contra hpast
      rw [MemWrite_panic_past mem B O (by omega)] at hok
      exact WriteResult.noConfusion hok
  · intro d t hok
    constructor
    · by_contra hneg
      rw [MemRead_panic_neg mem bufLen O (by omega)] at hok
      exact ReadResult.noConfusion hok
    · by_contra hpast
      rw [MemRead_panic_past mem bufLen O (by omega)] at hok
      exact ReadResult.noConfusion hok

/-- Witness for C10 at a concrete memory and offset. -/
theorem vm_c10_oob_panic_witness :
    MemWrite ⟨4, fun _ => 0⟩ [1, 2] 9 = .slicePanic
      ∧ MemRead ⟨4, fun _ => 0⟩ 2 (-1) = .slicePanic :=
  ⟨((vm_c10_oob_panic ⟨4, fun _ => 0⟩ [1, 2] 2 9).1 (Or.inr (by norm_num [MemSize]))).1,
   ((vm_c10_oob_panic ⟨4, fun _ => 0⟩ [1, 2] 2 (-1)).1 (Or.inl (by norm_num))).2⟩

/-! ## Claim C9 -/

/-- C9 (confirmed).  For `0 ≤ O` and `O + len(B) ≤ MemSize()`:
`MemWrite(B, O)` transfers `len(B)` bytes with no short-write error and
leaves `MemSize` unchanged, and a subsequent `MemRead` of a `len(B)`-byte
buffer at `O` yields exactly `B`, transferring `len(B)` bytes with no
short-buffer error. -/
theorem vm_c9_roundtrip (mem : VMem) (B : List Nat) (O : Int)
    (h0 : 0 ≤ O) (h1 : O + B.length ≤ (mem.len : Int)) :
    ∃ mem', MemWrite mem B O = .ok B.length false mem'
      ∧ MemSize mem' = MemSize mem
      ∧ MemRead mem' B.length O = .ok B B.length false := by
  refine ⟨{ len := mem.len
            byteAt := fun i =>
              if O.toNat ≤ i ∧ i < O.toNat + B.length ∧ i < mem.len then
                B.getD (i - O.toNat) 0
              else mem.byteAt i }, ?_, rfl, ?_⟩
  · unfold MemWrite
    rw [if_neg (by omega)]
    unfold copyIntoMem
    rw [if_neg (by push_neg; omega)]
  · unfold MemRead
    rw [if_neg (show ¬ ((mem.len : Int) < O + B.length) by omega)]
    rw [if_neg (by omega)]
    have hdata : readMemBytes
        { len := mem.len
          byteAt := fun i =>
            if O.toNat ≤ i ∧ i < O.toNat + B.length ∧ i < mem.len then
              B.getD (i - O.toNat) 0
            else mem.byteAt i } O.toNat B.length = B := by
      apply List.ext_getElem
      · simp [readMemBytes]
      · intro i hi1 hi2
        simp only [readMemBytes, List.getElem_map, List.getElem_range]
        rw [if_pos (by omega)]
        rw [show O.toNat + i - O.toNat = i by omega]
        exact List.getD_eq_getElem B 0 hi2
    rw [hdata]

/-! ## Claim C5 -/

/-- `toInt64` lands in `[-2^63, 2^63)`, and a negative `int64` has its top
bit set when written back as a `uint64` pattern. -/
theorem toInt64_pattern (x : Nat) :
    -(2 ^ 63) ≤ toInt64 x ∧ (toInt64 x < 0 → 2 ^ 63 ≤ toUint64 (toInt64 x)) := by
  unfold toInt64 toUint64
  split_ifs <;> omega

/-- C5 counterexample.  `i32.const -1` (LEB byte `0x7f`) pushes the
sign-extended slot `0xFFFFFFFFFFFFFFFF`, whose upper 32 bits are all
ones — not the zero-extension `0xFFFFFFFF` the claim requires. -/
theorem vm_c5_counterexample :
    i32ConstPush [127] = some 18446744073709551615
      ∧ (18446744073709551615 : Nat) ≠ 4294967295
      ∧ ¬ (18446744073709551615 : Nat) < 2 ^ 32 := by
  refine ⟨by decide, by decide, by decide⟩

/-- C5 as amended: `i32.const` pushes the decoded operand as a
sign-extended 64-bit value (`uint64(int64)`), so a negative operand
yields a slot whose top bit — and hence upper 32 bits — are set, while a
non-negative operand below `2^32` is indeed zero-extended; and every
function whose declared return type is i32 yields a zero-extended slot at
return, because `castReturnValue` truncates the slot to its low 32 bits. -/
theorem vm_c5_amended :
    (∀ bs cnt k, lebRead bs 32 true = some (cnt, k) →
        i32ConstPush bs = some (toUint64 k)
          ∧ -(2 ^ 63) ≤ k
          ∧ (k < 0 → 2 ^ 63 ≤ toUint64 k))
      ∧ (∀ k : Int, 0 ≤ k → k < 2 ^ 32 → toUint64 k = k.toNat ∧ toUint64 k < 2 ^ 32)
      ∧ (∀ v, castReturnValue v 0x7f = some (v % 2 ^ 32) ∧ v % 2 ^ 32 < 2 ^ 32) := by
  refine ⟨?_, ?_, ?_⟩
  · intro bs cnt k h
    unfold lebRead at h
    rw [if_neg (by norm_num)] at h
    cases hl : lebLoop bs 32 0 0 0 (2 ^ 64 - 1) with
    | none => rw [hl] at h; exact Option.noConfusion h
    | some v =>
      rw [hl] at h
      rcases v with ⟨c, r, s⟩
      simp only [Option.some.injEq, Prod.mk.injEq] at h
      obtain ⟨hc, hk⟩ := h
      refine ⟨?_, ?_, ?_⟩
      · unfold i32ConstPush lebRead
        rw [if_neg (by norm_num), hl]
        simp only [Option.map_some']
        rw [← hk]
      · rw [← hk]
        exact (toInt64_pattern _).1
      · rw [← hk]
        exact (toInt64_pattern _).2
  · intro k h0 h1
    unfold toUint64
    omega
  · intro v
    refine ⟨?_, by omega⟩
    unfold castReturnValue
    rw [if_pos (Or.inl rfl)]

/-- Witness for C5's amended theorem at the byte `0x05` (operand 5):
the pushed slot is the zero-extension of 5. -/
theorem vm_c5_amended_witness :
    i32ConstPush [5] = some (toUint64 5) :=
  ((vm_c5_amended.1 [5] 1 5 (by decide))).1

/-- Witness for C9 at a concrete memory, buffer and offset. -/
theorem vm_c9_roundtrip_witness :
    ∃ mem', MemWrite ⟨4, fun _ => 9⟩ [1, 2] 1 = .ok 2 false mem'
      ∧ MemSize mem' = MemSize ⟨4, fun _ => 9⟩
      ∧ MemRead mem' 2 1 = .ok [1, 2] 2 false :=
  vm_c9_roundtrip ⟨4, fun _ => 9⟩ [1, 2] 1 (by norm_num) (by norm_num)

/-! ## call_indirect (vm.go CallIndirect case, assertFuncSig, CallFunction) -/

/-- `wasm.FuncType`: parameter and result value types (as type bytes). -/
structure FuncType where
  ParamTypes : List Nat
  ReturnTypes : List Nat
  deriving DecidableEq, Repr

/-- The checks of `assertFuncSig` (vm.go lines 1193-1209) as a predicate:
lengths of both type lists equal and elementwise equal. -/
def funcSigMatches (signature expected : FuncType) : Bool :=
  signature.ParamTypes.length == expected.ParamTypes.length
    && signature.ReturnTypes.length == expected.ReturnTypes.length
    && (List.zip signature.ParamTypes expected.ParamTypes).all (fun pr => pr.1 == pr.2)
    && (List.zip signature.ReturnTypes expected.ReturnTypes).all (fun pr => pr.1 == pr.2)

/-- Outcome of the `opcode.CallIndirect` case: a trap, a dispatch to a
host import (no signature check!), a dispatch to a local function (frame
set up, signature verified), the non-trap func-not-found error from
`setupFrame`, or an unrecovered Go runtime panic from indexing the table
with a huge `uint64`. -/
inductive CallIndirectOutcome where
  | trap (e : ExecErr)
  | hostCall (fidx : Nat)
  | localCall (fidx : Nat)
  | errFuncNotFound
  | runtimePanic
  deriving DecidableEq, Repr

/-- The `opcode.CallIndirect` case of `interpret` (vm.go lines 308-323)
after the immediates are read: `eidx` is the popped slot, `table` is
`TableIndexSpace[0]`, `imports` the `functionImports` signatures,
`localFuncs` the `FunctionIndexSpace` signatures and `expected` the
call-site signature `TypeSec.FuncTypes[sigIndex]`.  `int(eidx) >=
len(table)` traps; the table entry below `len(imports)` dispatches to the
host via `CallFunction` with no signature check; otherwise `setupFrame`
runs (func-not-found surfaces as an error) and then `assertFuncSig`
traps on mismatch. -/
def CallIndirect (table : List Nat) (imports localFuncs : List FuncType)
    (expected : FuncType) (eidx : Nat) : CallIndirectOutcome :=
  if (table.length : Int) ≤ toInt64 eidx then .trap .outOfBoundTableAccess
  else if h : eidx < table.length then
    let fidx := table.get ⟨eidx, h⟩
    if fidx < imports.length then .hostCall fidx
    else
      match localFuncs.get? (fidx - imports.length) with
      | none => .errFuncNotFound
      | some signature =>
        if funcSigMatches signature expected then .localCall fidx
        else .trap .mismatchedFuncSig
  else .runtimePanic

/-! ## Claim C6 -/

/-- C6 counterexample.  A `call_indirect` that resolves to a host import
is dispatched WITHOUT any signature check: with table `[0]`, one import
of signature `() → ()` and call-site signature `(i32) → ()` — which
differ — element index 0 dispatches to the host instead of trapping
"indirect call type mismatch". -/
theorem vm_c6_counterexample :
    funcSigMatches ⟨[], []⟩ ⟨[0x7f], []⟩ = false
      ∧ CallIndirect [0] [⟨[], []⟩] [] ⟨[0x7f], []⟩ 0 = .hostCall 0
      ∧ CallIndirect [0] [⟨[], []⟩] [] ⟨[0x7f], []⟩ 0 ≠ .trap .mismatchedFuncSig := by
  refine ⟨by decide, by decide, by decide⟩

/-- C6 as amended: a popped element index at or beyond the table length
(for indices below `2^63`; larger ones hit an unrecovered runtime panic)
traps "out of bounds table access"; an in-table index resolving to a
LOCALLY DEFINED function whose signature differs from the call-site
signature traps "indirect call type mismatch", and one whose signature
matches proceeds; but an index resolving to a host import is dispatched
with NO signature check at all. -/
theorem vm_c6_amended (table : List Nat) (imports localFuncs : List FuncType)
    (expected : FuncType) (eidx : Nat) (hsmall : eidx < 2 ^ 63) :
    (table.length ≤ eidx →
        CallIndirect table imports localFuncs expected eidx = .trap .outOfBoundTableAccess
          ∧ ExecErr.message .outOfBoundTableAccess = "out of bounds table access")
      ∧ (∀ h : eidx < table.length,
          (table.get ⟨eidx, h⟩ < imports.length →
            CallIndirect table imports localFuncs expected eidx
              = .hostCall (table.get ⟨eidx, h⟩))
          ∧ (imports.length ≤ table.get ⟨eidx, h⟩ →
              ∀ s, localFuncs.get? (table.get ⟨eidx, h⟩ - imports.length) = some s →
                (funcSigMatches s expected = false →
                  CallIndirect table imports localFuncs expected eidx
                      = .trap .mismatchedFuncSig
                    ∧ ExecErr.message .mismatchedFuncSig = "indirect call type mismatch")
                  ∧ (funcSigMatches s expected = true →
                    CallIndirect table imports localFuncs expected eidx
                      = .localCall (table.get ⟨eidx, h⟩)))) := by
  have ht : toInt64 eidx = (eidx : Int) := by
    unfold toInt64
    rw [if_pos hsmall]
  constructor
  · intro hob
    refine ⟨?_, rfl⟩
    unfold CallIndirect
    rw [if_pos (by rw [ht]; exact_mod_cast hob)]
  · intro h
    have hin : ¬ (table.length : Int) ≤ toInt64 eidx := by
      rw [ht]
      exact_mod_cast not_le.mpr h
    constructor
    · intro hhost
      unfold CallIndirect
      rw [if_neg hin, dif_pos h, if_pos hhost]
    · intro hlocal s hs
      have hnothost : ¬ table.get ⟨eidx, h⟩ < imports.length := not_lt.mpr hlocal
      constructor
      · intro hmis
        refine ⟨?_, rfl⟩
        unfold CallIndirect
        rw [if_neg hin, dif_pos h, if_neg hnothost, hs]
        simp only [hmis]
        rfl
      · intro hmatch
        unfold CallIndirect
        rw [if_neg hin, dif_pos h, if_neg hnothost, hs]
        simp only [hmatch]
        rfl

/-- Witness for C6's amended theorem: out-of-bounds trap on an empty
table, and a matching local dispatch. -/
theorem vm_c6_amended_witness :
    CallIndirect [] [] [] ⟨[], []⟩ 0 = .trap .outOfBoundTableAccess
      ∧ CallIndirect [1] [⟨[], []⟩] [⟨[0x7f], [0x7f]⟩] ⟨[0x7f], [0x7f]⟩ 0
          = .localCall 1 := by
  constructor
  · exact ((vm_c6_amended [] [] [] ⟨[], []⟩ 0 (by norm_num)).1 (by norm_num)).1
  · have h := (((vm_c6_amended [1] [⟨[], []⟩] [⟨[0x7f], [0x7f]⟩] ⟨[0x7f], [0x7f]⟩ 0
      (by norm_num)).2 (by decide)).2 (by decide)) ⟨[0x7f], [0x7f]⟩ rfl
    exact h.2 (by decide)

/-! ## The number package: types, Min/Max, CanTruncate, FloatTruncate -/

/-- `number.Type`. -/
inductive NumType where
  | I32
  | I64
  | U32
  | U64
  | F32
  | F64
  deriving DecidableEq, Repr

/-- `number.TrapCode`. -/
inductive TrapCode where
  | NoTrap
  | NanTrap
  | ConvertTrap
  deriving DecidableEq, Repr

/-- A decoded IEEE-754 value: NaN, a signed infinity, or a finite value
represented exactly as a rational. -/
inductive FVal where
  | nan
  | inf (neg : Bool)
  | fin (q : ℚ)
  deriving DecidableEq, Repr

/-- Exact value semantics of `math.Float32frombits` on a 32-bit pattern:
sign / 8-bit exponent / 23-bit fraction; exponent 255 encodes
infinity/NaN; a finite value is `±mval·2^e / 2^150` with
`mval < 2^24`. -/
def decodeF32 (b : Nat) : FVal :=
  let sign := b / 2 ^ 31 % 2
  let e := b / 2 ^ 23 % 2 ^ 8
  let f := b % 2 ^ 23
  if e = 255 then
    if f = 0 then .inf (sign = 1) else .nan
  else
    let mval : Nat := if e = 0 then 2 * f else 2 ^ 23 + f
    let mag : ℚ := ((mval * 2 ^ e : Nat) : ℚ) / 2 ^ 150
    .fin (if sign = 1 then -mag else mag)

/-- Exact value semantics of `math.Float64frombits` on a 64-bit pattern:
sign / 11-bit exponent / 52-bit fraction; exponent 2047 encodes
infinity/NaN; a finite value is `±mval·2^e / 2^1075` with
`mval < 2^53`. -/
def decodeF64 (b : Nat) : FVal :=
  let sign := b / 2 ^ 63 % 2
  let e := b / 2 ^ 52 % 2 ^ 11
  let f := b % 2 ^ 52
  if e = 2047 then
    if f = 0 then .inf (sign = 1) else .nan
  else
    let mval : Nat := if e = 0 then 2 * f else 2 ^ 52 + f
    let mag : ℚ := ((mval * 2 ^ e : Nat) : ℚ) / 2 ^ 1075
    .fin (if sign = 1 then -mag else mag)

/-- `math.Signbit` of a float32, read off the bit pattern. -/
def signBit32 (b : Nat) : Bool := b / 2 ^ 31 % 2 = 1

/-- `math.Signbit` of a float64, read off the bit pattern. -/
def signBit64 (b : Nat) : Bool := b / 2 ^ 63 % 2 = 1

/-- Go comparison `bound <= v` on floats (false on NaN). -/
def fvalGe (v : FVal) (bound : ℚ) : Bool :=
  match v with
  | .nan => false
  | .inf neg => !neg
  | .fin x => bound ≤ x

/-- Go comparison `v < bound` on floats (false on NaN). -/
def fvalLt (v : FVal) (bound : ℚ) : Bool :=
  match v with
  | .nan => false
  | .inf neg => neg
  | .fin x => x < bound

/-- Go comparison `bound < v` on floats (false on NaN). -/
def fvalGt (v : FVal) (bound : ℚ) : Bool :=
  match v with
  | .nan => false
  | .inf neg => !neg
  | .fin x => bound < x

/-- `number.CanTruncate` (truncate.go): the per-pair range checks; the Go
constants (`math.MinInt32`, `math.MaxInt32+1`, …) convert exactly to the
comparison float type, so the bounds are the exact integers used here.
`none` models the panics on invalid type pairs. -/
def CanTruncate (fr dst : NumType) (v : FVal) : Option Bool :=
  match fr, dst with
  | .F32, .I32 => some (fvalGe v (-(2 ^ 31)) && fvalLt v (2 ^ 31))
  | .F64, .I32 => some (fvalGt v (-(2 ^ 31) - 1) && fvalLt v (2 ^ 31))
  | .F32, .U32 => some (fvalGt v (-1) && fvalLt v (2 ^ 32))
  | .F64, .U32 => some (fvalGt v (-1) && fvalLt v (2 ^ 32))
  | .F32, .I64 => some (fvalGe v (-(2 ^ 63)) && fvalLt v (2 ^ 63))
  | .F64, .I64 => some (fvalGe v (-(2 ^ 63)) && fvalLt v (2 ^ 63))
  | .F32, .U64 => some (fvalGt v (-1) && fvalLt v (2 ^ 64))
  | .F64, .U64 => some (fvalGt v (-1) && fvalLt v (2 ^ 64))
  | _, _ => none

/-- `number.Min` (minmax.go): the `uint64` pattern of the destination
type's minimum (`uint64(math.MinInt32)` is sign-extended); panics
(`none`) on float types. -/
def numberMin (t : NumType) : Option Nat :=
  match t with
  | .I32 => some (toUint64 (-(2 ^ 31)))
  | .I64 => some (toUint64 (-(2 ^ 63)))
  | .U32 => some 0
  | .U64 => some 0
  | _ => none

/-- `number.Max` (minmax.go). -/
def numberMax (t : NumType) : Option Nat :=
  match t with
  | .I32 => some (2 ^ 31 - 1)
  | .I64 => some (2 ^ 63 - 1)
  | .U32 => some (2 ^ 32 - 1)
  | .U64 => some (2 ^ 64 - 1)
  | _ => none

/-- Go float-to-int conversion truncates toward zero. -/
def ratTrunc (q : ℚ) : Int :=
  if q < 0 then -(Int.floor (-q)) else Int.floor q

/-- The final `switch dst` of `FloatTruncate`: cast the truncated integer
to the destination and widen to a `uint64` slot (`uint64(int32(f))`
sign-extends, `uint64(uint32(f))` zero-extends); only reached in range. -/
def truncCast (dst : NumType) (t : Int) : Option Nat :=
  match dst with
  | .I32 => some (toUint64 t)
  | .I64 => some (toUint64 t)
  | .U32 => some t.toNat
  | .U64 => some t.toNat
  | _ => none

/-- The body shared by the two (textually identical) `from == F32` /
`from == F64` branches of `number.FloatTruncate`: `f` is the decoded
float and `sb` its sign bit (`math.Signbit`). -/
def floatTruncateBody (fr dst : NumType) (f : FVal) (sb : Bool) : Option (Nat × TrapCode) :=
  if f = .nan then some (0, .NanTrap)
  else
    match CanTruncate fr dst f with
    | none => none
    | some can =>
      if !can then
        match (if sb then numberMin dst else numberMax dst) with
        | none => none
        | some m => some (m, .ConvertTrap)
      else
        match f with
        | .fin q => (truncCast dst (ratTrunc q)).map (fun r => (r, .NoTrap))
        | _ => none

/-- `number.FloatTruncate` (truncate.go): dispatch on the source type;
`Float32frombits(uint32(floatBits))` truncates the slot to 32 bits. -/
def FloatTruncate (fr dst : NumType) (floatBits : Nat) : Option (Nat × TrapCode) :=
  match fr with
  | .F32 => floatTruncateBody .F32 dst (decodeF32 (floatBits % 2 ^ 32)) (signBit32 (floatBits % 2 ^ 32))
  | .F64 => floatTruncateBody .F64 dst (decodeF64 floatBits) (signBit64 floatBits)
  | _ => none

/-! ## Interpreter dispatch for trunc and trunc_sat (vm.go lines 885-996) -/

/-- Outcome of a trapping truncation opcode. -/
inductive TruncOutcome where
  | pushed (v : Nat)
  | trap (e : ExecErr)
  | panicOther
  deriving DecidableEq, Repr

/-- The `I32TruncSF32 … I64TruncUF64` cases of `interpret`: `NanTrap`
panics `ErrInvalidIntConversion`, `ConvertTrap` panics
`ErrIntegerOverflow`, otherwise the result is pushed. -/
def truncOp (fr dst : NumType) (bits : Nat) : TruncOutcome :=
  match FloatTruncate fr dst bits with
  | none => .panicOther
  | some (_, .NanTrap) => .trap .invalidIntConversion
  | some (_, .ConvertTrap) => .trap .integerOverflow
  | some (r, .NoTrap) => .pushed r

/-- The sub-opcode table of the `opcode.ITruncSatF` case. -/
def truncSatSub (subop : Nat) : Option (NumType × NumType) :=
  match subop with
  | 0 => some (.F32, .I32)
  | 1 => some (.F32, .U32)
  | 2 => some (.F64, .I32)
  | 3 => some (.F64, .U32)
  | 4 => some (.F32, .I64)
  | 5 => some (.F32, .U64)
  | 6 => some (.F64, .I64)
  | 7 => some (.F64, .U64)
  | _ => none

/-- The `opcode.ITruncSatF` case of `interpret`: the trap code is
discarded and the value pushed; a sub-opcode above 7 falls through the
switch and pushes nothing (`none`). -/
def truncSatOp (subop : Nat) (bits : Nat) : Option Nat :=
  match truncSatSub subop with
  | none => none
  | some (fr, dst) => (FloatTruncate fr dst bits).map Prod.fst

/-! ## Claim-side vocabulary for C7 -/

/-- The decoded float seen by `FloatTruncate` for a given source type. -/
def decodeOf (fr : NumType) (bits : Nat) : FVal :=
  match fr with
  | .F32 => decodeF32 (bits % 2 ^ 32)
  | .F64 => decodeF64 bits
  | _ => .nan

/-- The destination type's minimum, as the claim speaks of it. -/
def dstMin (dst : NumType) : Int :=
  match dst with
  | .I32 => -(2 ^ 31)
  | .I64 => -(2 ^ 63)
  | .U32 => 0
  | .U64 => 0
  | _ => 0

/-- The destination type's maximum, as the claim speaks of it. -/
def dstMax (dst : NumType) : Int :=
  match dst with
  | .I32 => 2 ^ 31 - 1
  | .I64 => 2 ^ 63 - 1
  | .U32 => 2 ^ 32 - 1
  | .U64 => 2 ^ 64 - 1
  | _ => 0

/-- "In range" in the claim's sense: the value truncates to an integer
between the destination's minimum and maximum, i.e.
`min - 1 < q < max + 1`. -/
def truncRange (dst : NumType) (q : ℚ) : Prop :=
  (dstMin dst : ℚ) - 1 < q ∧ q < (dstMax dst : ℚ) + 1

/-! ## Arithmetic support for C7 -/

/-- Truncation of a non-negative rational is its floor. -/
theorem ratTrunc_nonneg (q : ℚ) (h : 0 ≤ q) :
    0 ≤ ratTrunc q ∧ (ratTrunc q : ℚ) ≤ q ∧ q < (ratTrunc q : ℚ) + 1 := by
  unfold ratTrunc
  rw [if_neg (not_lt.mpr h)]
  exact ⟨Int.floor_nonneg.mpr h, Int.floor_le q, Int.lt_floor_add_one q⟩

/-- Truncation of a negative rational rounds up toward zero. -/
theorem ratTrunc_neg (q : ℚ) (h : q < 0) :
    ratTrunc q ≤ 0 ∧ q ≤ (ratTrunc q : ℚ) ∧ (ratTrunc q : ℚ) - 1 < q := by
  unfold ratTrunc
  rw [if_pos h]
  have h1 : (Int.floor (-q) : ℚ) ≤ -q := Int.floor_le _
  have h2 : -q < Int.floor (-q) + 1 := Int.lt_floor_add_one _
  have h0 : 0 ≤ Int.floor (-q) := Int.floor_nonneg.mpr (by linarith)
  refine ⟨by omega, ?_, ?_⟩
  · push_cast
    linarith
  · push_cast
    linarith

/-- A value strictly between `min - 1` and `max + 1` truncates into
`[min, max]` (for `min ≤ 0 ≤ max`). -/
theorem ratTrunc_range (m M : Int) (q : ℚ) (hm : m ≤ 0) (hM : 0 ≤ M)
    (h : (m : ℚ) - 1 < q ∧ q < (M : ℚ) + 1) :
    m ≤ ratTrunc q ∧ ratTrunc q ≤ M := by
  by_cases hq : 0 ≤ q
  · obtain ⟨h0, hle, hlt⟩ := ratTrunc_nonneg q hq
    refine ⟨by omega, ?_⟩
    have hx : (ratTrunc q : ℚ) < (M : ℚ) + 1 := lt_of_le_of_lt hle h.2
    have hx' : ratTrunc q < M + 1 := by exact_mod_cast hx
    omega
  · push_neg at hq
    obtain ⟨h0, hge, hgt⟩ := ratTrunc_neg q hq
    refine ⟨?_, by omega⟩
    have hx : (m : ℚ) - 1 < (ratTrunc q : ℚ) := lt_of_lt_of_le h.1 hge
    have hx' : m - 1 < ratTrunc q := by exact_mod_cast hx
    omega

/-- No product `mval * 2^e` with `mval < 2^a ≤ 2^c` lies strictly between
`2^c·2^d` and `(2^c+1)·2^d`: above `2^c·2^d` such a product is a
multiple of `2^(d+1)`, and the gap is only `2^d` wide. -/
theorem pow_gap (a c d mval e : Nat) (hm : mval < 2 ^ a) (hac : a ≤ c) (hc : 1 ≤ c)
    (h1 : 2 ^ c * 2 ^ d < mval * 2 ^ e) (h2 : mval * 2 ^ e < (2 ^ c + 1) * 2 ^ d) :
    False := by
  have hlt : 2 ^ c * 2 ^ d < 2 ^ c * 2 ^ e := by
    calc 2 ^ c * 2 ^ d < mval * 2 ^ e := h1
    _ ≤ 2 ^ a * 2 ^ e := Nat.mul_le_mul_right _ (le_of_lt hm)
    _ ≤ 2 ^ c * 2 ^ e := Nat.mul_le_mul_right _ (Nat.pow_le_pow_right (by norm_num) hac)
  have hde : d < e := by
    have hx := Nat.lt_of_mul_lt_mul_left hlt
    exact (Nat.pow_lt_pow_iff_right (by norm_num)).mp hx
  obtain ⟨e', rfl⟩ : ∃ e', e = (d + 1) + e' := ⟨e - (d + 1), by omega⟩
  obtain ⟨c', rfl⟩ : ∃ c', c = c' + 1 := ⟨c - 1, by omega⟩
  have hL : 2 ^ (c' + 1) * 2 ^ d = 2 ^ c' * 2 ^ (d + 1) := by
    rw [pow_succ, pow_succ]
    ring
  have hX : mval * 2 ^ (d + 1 + e') = mval * 2 ^ e' * 2 ^ (d + 1) := by
    rw [pow_add]
    ring
  rw [hL, hX] at h1
  have hstep : 2 ^ c' < mval * 2 ^ e' :=
    lt_of_mul_lt_mul_right h1 (Nat.zero_le _)
  have hmul : (2 ^ c' + 1) * 2 ^ (d + 1) ≤ mval * 2 ^ e' * 2 ^ (d + 1) :=
    Nat.mul_le_mul_right _ hstep
  rw [hX] at h2
  have hexp : (2 ^ (c' + 1) + 1) * 2 ^ d = 2 ^ c' * 2 ^ (d + 1) + 2 ^ d := by
    rw [pow_succ, pow_succ]
    ring
  rw [hexp] at h2
  rw [add_mul, one_mul] at hmul
  have hDD : (2 : ℕ) ^ (d + 1) = 2 * 2 ^ d := by
    rw [pow_succ]
    ring
  have hD : 0 < (2 : ℕ) ^ d := pow_pos (by norm_num) d
  omega

/-- Inversion of `decodeF32` at a finite value: the value is
`± mval·2^e / 2^150` with `mval < 2^24`, and the sign matches the top
bit. -/
theorem decodeF32_fin (b : Nat) (q : ℚ) (h : decodeF32 b = .fin q) :
    ∃ mval e : Nat, mval < 2 ^ 24 ∧
      ((signBit32 b = false ∧ q = ((mval * 2 ^ e : Nat) : ℚ) / 2 ^ 150)
        ∨ (signBit32 b = true ∧ q = -(((mval * 2 ^ e : Nat) : ℚ) / 2 ^ 150))) := by
  simp only [decodeF32] at h
  by_cases he : b / 2 ^ 23 % 2 ^ 8 = 255
  · rw [if_pos he] at h
    by_cases hf : b % 2 ^ 23 = 0
    · rw [if_pos hf] at h
      exact absurd h (by simp)
    · rw [if_neg hf] at h
      exact absurd h (by simp)
  · rw [if_neg he] at h
    refine ⟨(if b / 2 ^ 23 % 2 ^ 8 = 0 then 2 * (b % 2 ^ 23) else 2 ^ 23 + b % 2 ^ 23),
      b / 2 ^ 23 % 2 ^ 8, ?_, ?_⟩
    · have : b % 2 ^ 23 < 2 ^ 23 := Nat.mod_lt _ (by norm_num)
      split_ifs <;> omega
    · simp only [FVal.fin.injEq] at h
      by_cases hs : b / 2 ^ 31 % 2 = 1
      · right
        refine ⟨by simp only [signBit32]; exact decide_eq_true hs, ?_⟩
        rw [← h, if_pos hs]
      · left
        refine ⟨by simp only [signBit32]; exact decide_eq_false hs, ?_⟩
        rw [← h, if_neg hs]

/-- Inversion of `decodeF64` at a finite value. -/
theorem decodeF64_fin (b : Nat) (q : ℚ) (h : decodeF64 b = .fin q) :
    ∃ mval e : Nat, mval < 2 ^ 53 ∧
      ((signBit64 b = false ∧ q = ((mval * 2 ^ e : Nat) : ℚ) / 2 ^ 1075)
        ∨ (signBit64 b = true ∧ q = -(((mval * 2 ^ e : Nat) : ℚ) / 2 ^ 1075))) := by
  simp only [decodeF64] at h
  by_cases he : b / 2 ^ 52 % 2 ^ 11 = 2047
  · rw [if_pos he] at h
    by_cases hf : b % 2 ^ 52 = 0
    · rw [if_pos hf] at h
      exact absurd h (by simp)
    · rw [if_neg hf] at h
      exact absurd h (by simp)
  · rw [if_neg he] at h
    refine ⟨(if b / 2 ^ 52 % 2 ^ 11 = 0 then 2 * (b % 2 ^ 52) else 2 ^ 52 + b % 2 ^ 52),
      b / 2 ^ 52 % 2 ^ 11, ?_, ?_⟩
    · have : b % 2 ^ 52 < 2 ^ 52 := Nat.mod_lt _ (by norm_num)
      split_ifs <;> omega
    · simp only [FVal.fin.injEq] at h
      by_cases hs : b / 2 ^ 63 % 2 = 1
      · right
        refine ⟨by simp only [signBit64]; exact decide_eq_true hs, ?_⟩
        rw [← h, if_pos hs]
      · left
        refine ⟨by simp only [signBit64]; exact decide_eq_false hs, ?_⟩
        rw [← h, if_neg hs]

/-- No finite float32 value has magnitude strictly between `2^c` and
`2^c + 1` for `c ≥ 24`. -/
theorem decodeF32_no_gap (b : Nat) (q : ℚ) (h : decodeF32 b = .fin q) (c : Nat)
    (hc : 24 ≤ c) (h1 : (2 : ℚ) ^ c < |q|) (h2 : |q| < 2 ^ c + 1) : False := by
  obtain ⟨mval, e, hm, hor⟩ := decodeF32_fin b q h
  have hpos : (0 : ℚ) ≤ ((mval * 2 ^ e : Nat) : ℚ) / 2 ^ 150 := by positivity
  have hmag : |q| = ((mval * 2 ^ e : Nat) : ℚ) / 2 ^ 150 := by
    rcases hor with ⟨-, rfl⟩ | ⟨-, rfl⟩
    · exact abs_of_nonneg hpos
    · rw [abs_neg]
      exact abs_of_nonneg hpos
  rw [hmag] at h1 h2
  have hq1 : (2 : ℚ) ^ c * 2 ^ 150 < ((mval * 2 ^ e : Nat) : ℚ) :=
    (lt_div_iff₀ (by positivity)).mp h1
  have hq2 : ((mval * 2 ^ e : Nat) : ℚ) < ((2 : ℚ) ^ c + 1) * 2 ^ 150 :=
    (div_lt_iff₀ (by positivity)).mp h2
  have hn1 : 2 ^ c * 2 ^ 150 < mval * 2 ^ e := by exact_mod_cast hq1
  have hn2 : mval * 2 ^ e < (2 ^ c + 1) * 2 ^ 150 := by exact_mod_cast hq2
  exact pow_gap 24 c 150 mval e hm hc (by omega) hn1 hn2

/-- No finite float64 value has magnitude strictly between `2^c` and
`2^c + 1` for `c ≥ 53`. -/
theorem decodeF64_no_gap (b : Nat) (q : ℚ) (h : decodeF64 b = .fin q) (c : Nat)
    (hc : 53 ≤ c) (h1 : (2 : ℚ) ^ c < |q|) (h2 : |q| < 2 ^ c + 1) : False := by
  obtain ⟨mval, e, hm, hor⟩ := decodeF64_fin b q h
  have hpos : (0 : ℚ) ≤ ((mval * 2 ^ e : Nat) : ℚ) / 2 ^ 1075 := by positivity
  have hmag : |q| = ((mval * 2 ^ e : Nat) : ℚ) / 2 ^ 1075 := by
    rcases hor with ⟨-, rfl⟩ | ⟨-, rfl⟩
    · exact abs_of_nonneg hpos
    · rw [abs_neg]
      exact abs_of_nonneg hpos
  rw [hmag] at h1 h2
  have hq1 : (2 : ℚ) ^ c * 2 ^ 1075 < ((mval * 2 ^ e : Nat) : ℚ) :=
    (lt_div_iff₀ (by positivity)).mp h1
  have hq2 : ((mval * 2 ^ e : Nat) : ℚ) < ((2 : ℚ) ^ c + 1) * 2 ^ 1075 :=
    (div_lt_iff₀ (by positivity)).mp h2
  have hn1 : 2 ^ c * 2 ^ 1075 < mval * 2 ^ e := by exact_mod_cast hq1
  have hn2 : mval * 2 ^ e < (2 ^ c + 1) * 2 ^ 1075 := by exact_mod_cast hq2
  exact pow_gap 53 c 1075 mval e hm hc (by omega) hn1 hn2

/-- For a nonzero finite float32 value, negativity coincides with the
sign bit. -/
theorem decodeF32_sign (b : Nat) (q : ℚ) (h : decodeF32 b = .fin q) (hq : q ≠ 0) :
    q < 0 ↔ signBit32 b = true := by
  obtain ⟨mval, e, hm, hor⟩ := decodeF32_fin b q h
  have hpos : (0 : ℚ) ≤ ((mval * 2 ^ e : Nat) : ℚ) / 2 ^ 150 := by positivity
  rcases hor with ⟨hs, rfl⟩ | ⟨hs, rfl⟩
  · constructor
    · intro hlt
      linarith
    · intro hs'
      rw [hs] at hs'
      exact absurd hs' (by simp)
  · constructor
    · intro _
      exact hs
    · intro _
      rcases lt_or_eq_of_le hpos with hlt | heq
      · linarith
      · exfalso
        apply hq
        rw [← heq, neg_zero]

/-- For a nonzero finite float64 value, negativity coincides with the
sign bit. -/
theorem decodeF64_sign (b : Nat) (q : ℚ) (h : decodeF64 b = .fin q) (hq : q ≠ 0) :
    q < 0 ↔ signBit64 b = true := by
  obtain ⟨mval, e, hm, hor⟩ := decodeF64_fin b q h
  have hpos : (0 : ℚ) ≤ ((mval * 2 ^ e : Nat) : ℚ) / 2 ^ 1075 := by positivity
  rcases hor with ⟨hs, rfl⟩ | ⟨hs, rfl⟩
  · constructor
    · intro hlt
      linarith
    · intro hs'
      rw [hs] at hs'
      exact absurd hs' (by simp)
  · constructor
    · intro _
      exact hs
    · intro _
      rcases lt_or_eq_of_le hpos with hlt | heq
      · linarith
      · exfalso
        apply hq
        rw [← heq, neg_zero]

/-! ## Per-pair equivalence of the source range check with the claim's
"in range" (truncates into [min, max]) -/

/-- F64 → I32: the source bounds `-2^31-1 < v < 2^31` coincide with the
claim's range. -/
theorem canIff_F64_I32 (q : ℚ) :
    CanTruncate .F64 .I32 (.fin q) = some true ↔ truncRange .I32 q := by
  simp only [CanTruncate, fvalGt, fvalLt, truncRange, dstMin, dstMax,
    Option.some.injEq, Bool.and_eq_true, decide_eq_true_eq]
  constructor
  · rintro ⟨h1, h2⟩
    push_cast
    constructor <;> linarith
  · rintro ⟨h1, h2⟩
    push_cast at h1 h2
    constructor <;> linarith

/-- F32/F64 → U32: the source bounds `-1 < v < 2^32` coincide with the
claim's range. -/
theorem canIff_F32_U32 (q : ℚ) :
    CanTruncate .F32 .U32 (.fin q) = some true ↔ truncRange .U32 q := by
  simp only [CanTruncate, fvalGt, fvalLt, truncRange, dstMin, dstMax,
    Option.some.injEq, Bool.and_eq_true, decide_eq_true_eq]
  constructor
  · rintro ⟨h1, h2⟩
    push_cast
    constructor <;> linarith
  · rintro ⟨h1, h2⟩
    push_cast at h1 h2
    constructor <;> linarith

/-- F64 → U32. -/
theorem canIff_F64_U32 (q : ℚ) :
    CanTruncate .F64 .U32 (.fin q) = some true ↔ truncRange .U32 q := by
  simp only [CanTruncate, fvalGt, fvalLt, truncRange, dstMin, dstMax,
    Option.some.injEq, Bool.and_eq_true, decide_eq_true_eq]
  constructor
  · rintro ⟨h1, h2⟩
    push_cast
    constructor <;> linarith
  · rintro ⟨h1, h2⟩
    push_cast at h1 h2
    constructor <;> linarith

/-- F32 → U64. -/
theorem canIff_F32_U64 (q : ℚ) :
    CanTruncate .F32 .U64 (.fin q) = some true ↔ truncRange .U64 q := by
  simp only [CanTruncate, fvalGt, fvalLt, truncRange, dstMin, dstMax,
    Option.some.injEq, Bool.and_eq_true, decide_eq_true_eq]
  constructor
  · rintro ⟨h1, h2⟩
    push_cast
    constructor <;> linarith
  · rintro ⟨h1, h2⟩
    push_cast at h1 h2
    constructor <;> linarith

/-- F64 → U64. -/
theorem canIff_F64_U64 (q : ℚ) :
    CanTruncate .F64 .U64 (.fin q) = some true ↔ truncRange .U64 q := by
  simp only [CanTruncate, fvalGt, fvalLt, truncRange, dstMin, dstMax,
    Option.some.injEq, Bool.and_eq_true, decide_eq_true_eq]
  constructor
  · rintro ⟨h1, h2⟩
    push_cast
    constructor <;> linarith
  · rintro ⟨h1, h2⟩
    push_cast at h1 h2
    constructor <;> linarith

/-- F32 → I32: the source's closed lower bound `-2^31 ≤ v` matches the
claim's open `-2^31-1 < v` because no float32 value lies strictly
between. -/
theorem canIff_F32_I32 (b : Nat) (q : ℚ) (hdec : decodeF32 b = .fin q) :
    CanTruncate .F32 .I32 (.fin q) = some true ↔ truncRange .I32 q := by
  simp only [CanTruncate, fvalGe, fvalLt, truncRange, dstMin, dstMax,
    Option.some.injEq, Bool.and_eq_true, decide_eq_true_eq]
  constructor
  · rintro ⟨h1, h2⟩
    push_cast
    constructor <;> linarith
  · rintro ⟨h1, h2⟩
    push_cast at h1 h2
    refine ⟨?_, by linarith⟩
    by_contra hq
    push_neg at hq
    refine decodeF32_no_gap b q hdec 31 (by norm_num) ?_ ?_
    · rw [abs_of_neg (by linarith : q < 0)]
      linarith
    · rw [abs_of_neg (by linarith : q < 0)]
      linarith

/-- F32 → I64: closed lower bound `-2^63 ≤ v`, no float32 value strictly
between `-2^63-1` and `-2^63`. -/
theorem canIff_F32_I64 (b : Nat) (q : ℚ) (hdec : decodeF32 b = .fin q) :
    CanTruncate .F32 .I64 (.fin q) = some true ↔ truncRange .I64 q := by
  simp only [CanTruncate, fvalGe, fvalLt, truncRange, dstMin, dstMax,
    Option.some.injEq, Bool.and_eq_true, decide_eq_true_eq]
  constructor
  · rintro ⟨h1, h2⟩
    push_cast
    constructor <;> linarith
  · rintro ⟨h1, h2⟩
    push_cast at h1 h2
    refine ⟨?_, by linarith⟩
    by_contra hq
    push_neg at hq
    refine decodeF32_no_gap b q hdec 63 (by norm_num) ?_ ?_
    · rw [abs_of_neg (by linarith : q < 0)]
      linarith
    · rw [abs_of_neg (by linarith : q < 0)]
      linarith

/-- F64 → I64: closed lower bound `-2^63 ≤ v`, no float64 value strictly
between `-2^63-1` and `-2^63`. -/
theorem canIff_F64_I64 (b : Nat) (q : ℚ) (hdec : decodeF64 b = .fin q) :
    CanTruncate .F64 .I64 (.fin q) = some true ↔ truncRange .I64 q := by
  simp only [CanTruncate, fvalGe, fvalLt, truncRange, dstMin, dstMax,
    Option.some.injEq, Bool.and_eq_true, decide_eq_true_eq]
  constructor
  · rintro ⟨h1, h2⟩
    push_cast
    constructor <;> linarith
  · rintro ⟨h1, h2⟩
    push_cast at h1 h2
    refine ⟨?_, by linarith⟩
    by_contra hq
    push_neg at hq
    refine decodeF64_no_gap b q hdec 63 (by norm_num) ?_ ?_
    · rw [abs_of_neg (by linarith : q < 0)]
      linarith
    · rw [abs_of_neg (by linarith : q < 0)]
      linarith

/-! ## FloatTruncate: branch specifications -/

/-- Signed destinations: `truncCast` is the sign-extending widening. -/
theorem truncCast_I32 (t : Int) : truncCast .I32 t = some (toUint64 t) := rfl

/-- Signed destinations: `truncCast` is the sign-extending widening. -/
theorem truncCast_I64 (t : Int) : truncCast .I64 t = some (toUint64 t) := rfl

/-- Unsigned destinations agree with `toUint64` inside the range. -/
theorem truncCast_U32 (t : Int) (h1 : dstMin .U32 ≤ t) (h2 : t ≤ dstMax .U32) :
    truncCast .U32 t = some (toUint64 t) := by
  simp only [dstMin, dstMax] at h1 h2
  simp only [truncCast, toUint64, Option.some.injEq]
  omega

/-- Unsigned destinations agree with `toUint64` inside the range. -/
theorem truncCast_U64 (t : Int) (h1 : dstMin .U64 ≤ t) (h2 : t ≤ dstMax .U64) :
    truncCast .U64 t = some (toUint64 t) := by
  simp only [dstMin, dstMax] at h1 h2
  simp only [truncCast, toUint64, Option.some.injEq]
  omega

/-- A NaN input short-circuits the branch body. -/
theorem floatTruncateBody_nan (fr dst : NumType) (sb : Bool) :
    floatTruncateBody fr dst .nan sb = some (0, .NanTrap) := by
  unfold floatTruncateBody
  rw [if_pos rfl]

/-- Behaviour of one `FloatTruncate` branch at a finite value, given the
per-destination facts. -/
theorem floatTruncateBody_spec (fr dst : NumType) (q : ℚ) (sb : Bool)
    (hclampMin : numberMin dst = some (toUint64 (dstMin dst)))
    (hclampMax : numberMax dst = some (toUint64 (dstMax dst)))
    (hiff : CanTruncate fr dst (.fin q) = some true ↔ truncRange dst q)
    (hsome : (CanTruncate fr dst (.fin q)).isSome = true)
    (hmin : dstMin dst ≤ 0) (hmax : 0 ≤ dstMax dst)
    (hcast : ∀ t : Int, dstMin dst ≤ t → t ≤ dstMax dst →
      truncCast dst t = some (toUint64 t))
    (hsign : q ≠ 0 → (q < 0 ↔ sb = true)) :
    (truncRange dst q →
        floatTruncateBody fr dst (.fin q) sb = some (toUint64 (ratTrunc q), .NoTrap))
      ∧ (¬ truncRange dst q →
        floatTruncateBody fr dst (.fin q) sb
          = some (toUint64 (if q < 0 then dstMin dst else dstMax dst), .ConvertTrap)) := by
  constructor
  · intro hr
    have hcan := hiff.mpr hr
    obtain ⟨hb1, hb2⟩ := ratTrunc_range (dstMin dst) (dstMax dst) q hmin hmax hr
    unfold floatTruncateBody
    rw [if_neg (by simp), hcan]
    simp only [Bool.not_true, Bool.false_eq_true, if_false]
    rw [hcast (ratTrunc q) hb1 hb2]
    rfl
  · intro hr
    have hq0 : q ≠ 0 := by
      intro h0
      apply hr
      subst h0
      have hm' : (dstMin dst : ℚ) ≤ 0 := by exact_mod_cast hmin
      have hM' : (0 : ℚ) ≤ (dstMax dst : ℚ) := by exact_mod_cast hmax
      exact ⟨by linarith, by linarith⟩
    obtain ⟨can, hcan⟩ := Option.isSome_iff_exists.mp hsome
    have hfalse : can = false := by
      cases can
      · rfl
      · exact absurd (hiff.mp hcan) hr
    subst hfalse
    unfold floatTruncateBody
    rw [if_neg (by simp), hcan]
    simp only [Bool.not_false, if_true]
    by_cases hql : q < 0
    · have hsb : sb = true := (hsign hq0).mp hql
      rw [hsb, if_pos rfl, hclampMin, if_pos hql]
    · have hsb : sb = false := by
        cases hsbc : sb
        · rfl
        · exact absurd ((hsign hq0).mpr hsbc) hql
      rw [hsb, if_neg (by simp), hclampMax, if_neg hql]

/-- `signBitOf` matches the decode used by each `FloatTruncate` branch. -/
def signBitOf (fr : NumType) (bits : Nat) : Bool :=
  match fr with
  | .F32 => signBit32 (bits % 2 ^ 32)
  | .F64 => signBit64 bits
  | _ => false

/-- `FloatTruncate` on a float source type is the branch body applied to
the decoded value and sign bit. -/
theorem FloatTruncate_eq_body (fr dst : NumType) (bits : Nat)
    (h : fr = .F32 ∨ fr = .F64) :
    FloatTruncate fr dst bits
      = floatTruncateBody fr dst (decodeOf fr bits) (signBitOf fr bits) := by
  rcases h with rfl | rfl <;> rfl

/-- Full behaviour of one trunc / trunc_sat pair, given the
per-destination and per-source facts. -/
theorem truncPair_spec (fr dst : NumType) (bits : Nat) (p : Nat)
    (hp : truncSatSub p = some (fr, dst))
    (hfr : fr = .F32 ∨ fr = .F64)
    (hclampMin : numberMin dst = some (toUint64 (dstMin dst)))
    (hclampMax : numberMax dst = some (toUint64 (dstMax dst)))
    (hmin : dstMin dst ≤ 0) (hmax : 0 ≤ dstMax dst)
    (hiff : ∀ q, decodeOf fr bits = .fin q →
      (CanTruncate fr dst (.fin q) = some true ↔ truncRange dst q))
    (hsome : ∀ q, (CanTruncate fr dst (.fin q)).isSome = true)
    (hcast : ∀ t : Int, dstMin dst ≤ t → t ≤ dstMax dst →
      truncCast dst t = some (toUint64 t))
    (hsign : ∀ q, decodeOf fr bits = .fin q → q ≠ 0 → (q < 0 ↔ signBitOf fr bits = true)) :
    (decodeOf fr bits = .nan →
        truncOp fr dst bits = .trap .invalidIntConversion
          ∧ truncSatOp p bits = some 0)
      ∧ (∀ q, decodeOf fr bits = .fin q →
        (truncRange dst q →
            truncOp fr dst bits = .pushed (toUint64 (ratTrunc q))
              ∧ truncSatOp p bits = some (toUint64 (ratTrunc q)))
          ∧ (¬ truncRange dst q →
            truncOp fr dst bits = .trap .integerOverflow
              ∧ truncSatOp p bits
                  = some (toUint64 (if q < 0 then dstMin dst else dstMax dst)))) := by
  have heq := FloatTruncate_eq_body fr dst bits hfr
  constructor
  · intro hnan
    rw [hnan] at heq
    rw [floatTruncateBody_nan] at heq
    constructor
    · unfold truncOp
      rw [heq]
    · unfold truncSatOp
      rw [hp]
      dsimp only
      rw [heq]
      rfl
  · intro q hq
    have hspec := floatTruncateBody_spec fr dst q (signBitOf fr bits)
      hclampMin hclampMax (hiff q hq) (hsome q) hmin hmax hcast (hsign q hq)
    rw [hq] at heq
    constructor
    · intro hr
      have hbody := hspec.1 hr
      rw [hbody] at heq
      constructor
      · unfold truncOp
        rw [heq]
      · unfold truncSatOp
        rw [hp]
        dsimp only
        rw [heq]
        rfl
    · intro hr
      have hbody := hspec.2 hr
      rw [hbody] at heq
      constructor
      · unfold truncOp
        rw [heq]
      · unfold truncSatOp
        rw [hp]
        dsimp only
        rw [heq]
        rfl

/-- An infinity decode fixes the sign bit: `decodeF32 b = .inf s` forces
`s` to be the pattern sign bit. -/
theorem decodeF32_inf (b : Nat) (s : Bool) (h : decodeF32 b = .inf s) :
    s = signBit32 b := by
  simp only [decodeF32] at h
  by_cases h1 : b / 2 ^ 23 % 2 ^ 8 = 255
  · rw [if_pos h1] at h
    by_cases h2 : b % 2 ^ 23 = 0
    · rw [if_pos h2] at h
      injection h with h3
      rw [← h3]
      rfl
    · rw [if_neg h2] at h
      exact absurd h (by simp)
  · rw [if_neg h1] at h
    exact absurd h (by simp)

/-- An infinity decode fixes the sign bit: `decodeF64 b = .inf s` forces
`s` to be the pattern sign bit. -/
theorem decodeF64_inf (b : Nat) (s : Bool) (h : decodeF64 b = .inf s) :
    s = signBit64 b := by
  simp only [decodeF64] at h
  by_cases h1 : b / 2 ^ 52 % 2 ^ 11 = 2047
  · rw [if_pos h1] at h
    by_cases h2 : b % 2 ^ 52 = 0
    · rw [if_pos h2] at h
      injection h with h3
      rw [← h3]
      rfl
    · rw [if_neg h2] at h
      exact absurd h (by simp)
  · rw [if_neg h1] at h
    exact absurd h (by simp)

/-- An infinity input reaches the clamp: `CanTruncate` is false on it
(every comparison chain has the form `+inf passes the lower bound but
not the upper` and symmetrically), and the branch body returns the
destination minimum for `-inf`, maximum for `+inf`, with the
overflow-trap code. -/
theorem floatTruncateBody_inf (fr dst : NumType) (s : Bool)
    (hclampMin : numberMin dst = some (toUint64 (dstMin dst)))
    (hclampMax : numberMax dst = some (toUint64 (dstMax dst)))
    (hcaninf : CanTruncate fr dst (.inf s) = some false) :
    floatTruncateBody fr dst (.inf s) s
      = some (toUint64 (if s then dstMin dst else dstMax dst), .ConvertTrap) := by
  unfold floatTruncateBody
  rw [if_neg (by simp), hcaninf]
  simp only [Bool.not_false, if_true]
  cases s
  · simp only [Bool.false_eq_true, if_false]
    rw [hclampMax]
  · simp only [if_true]
    rw [hclampMin]

/-- Behaviour of one trunc / trunc_sat pair at an infinity input: the
trapping form traps "integer overflow", the saturating form clamps to
the signed end of the destination range. -/
theorem truncPair_inf (fr dst : NumType) (bits : Nat) (p : Nat)
    (hp : truncSatSub p = some (fr, dst))
    (hfr : fr = .F32 ∨ fr = .F64)
    (hclampMin : numberMin dst = some (toUint64 (dstMin dst)))
    (hclampMax : numberMax dst = some (toUint64 (dstMax dst)))
    (hcaninf : ∀ s, CanTruncate fr dst (.inf s) = some false)
    (hsigninf : ∀ s, decodeOf fr bits = .inf s → signBitOf fr bits = s) :
    ∀ s, decodeOf fr bits = .inf s →
      truncOp fr dst bits = .trap .integerOverflow
        ∧ truncSatOp p bits = some (toUint64 (if s then dstMin dst else dstMax dst)) := by
  intro s hs
  have heq := FloatTruncate_eq_body fr dst bits hfr
  rw [hs, hsigninf s hs] at heq
  rw [floatTruncateBody_inf fr dst s hclampMin hclampMax (hcaninf s)] at heq
  constructor
  · unfold truncOp
    rw [heq]
  · unfold truncSatOp
    rw [hp]
    dsimp only
    rw [heq]
    rfl

/-! ## Claim C7 -/

/-- C7 (confirmed).  For every trapping truncation
`i{32,64}.trunc_{s,u}_f{32,64}` (the eight source/destination pairs, the
same pairs the saturating sub-opcodes 0..7 select): a NaN input traps
"invalid conversion to integer" (and the saturating form pushes 0); a
finite input whose truncation lies in the destination's `[min, max]`
pushes the truncated integer (both forms); a finite out-of-range input
traps "integer overflow", while the saturating form clamps to the
destination's minimum (negative input) or maximum (positive input); an
infinity input — out of every destination's range — likewise traps
"integer overflow" in the trapping form, while the saturating form
clamps it to the destination's minimum (negative infinity) or maximum
(positive infinity). -/
theorem vm_c7_trunc_spec :
    ExecErr.message .invalidIntConversion = "invalid conversion to integer"
      ∧ ExecErr.message .integerOverflow = "integer overflow"
      ∧ ∀ p fr dst, truncSatSub p = some (fr, dst) → ∀ bits,
        (decodeOf fr bits = .nan →
            truncOp fr dst bits = .trap .invalidIntConversion
              ∧ truncSatOp p bits = some 0)
          ∧ (∀ q, decodeOf fr bits = .fin q →
            (truncRange dst q →
                truncOp fr dst bits = .pushed (toUint64 (ratTrunc q))
                  ∧ truncSatOp p bits = some (toUint64 (ratTrunc q)))
              ∧ (¬ truncRange dst q →
                truncOp fr dst bits = .trap .integerOverflow
                  ∧ truncSatOp p bits
                      = some (toUint64 (if q < 0 then dstMin dst else dstMax dst))))
          ∧ (∀ s, decodeOf fr bits = .inf s →
            truncOp fr dst bits = .trap .integerOverflow
              ∧ truncSatOp p bits
                  = some (toUint64 (if s then dstMin dst else dstMax dst))) := by
  refine ⟨rfl, rfl, ?_⟩
  intro p fr dst hp bits
  match p, hp with
  | 0, hp =>
    simp only [truncSatSub, Option.some.injEq, Prod.mk.injEq] at hp
    obtain ⟨rfl, rfl⟩ := hp
    have h := truncPair_spec .F32 .I32 bits 0 rfl (Or.inl rfl) rfl rfl (by norm_num [dstMin])
      (by norm_num [dstMax]) (fun q hq => canIff_F32_I32 (bits % 2 ^ 32) q hq)
      (fun q => rfl) (fun t h1 h2 => truncCast_I32 t)
      (fun q hq h0 => decodeF32_sign (bits % 2 ^ 32) q hq h0)
    exact ⟨h.1, h.2, truncPair_inf .F32 .I32 bits 0 rfl (Or.inl rfl) rfl rfl
      (fun s => by cases s <;> rfl) (fun s hs => (decodeF32_inf (bits % 2 ^ 32) s hs).symm)⟩
  | 1, hp =>
    simp only [truncSatSub, Option.some.injEq, Prod.mk.injEq] at hp
    obtain ⟨rfl, rfl⟩ := hp
    have h := truncPair_spec .F32 .U32 bits 1 rfl (Or.inl rfl) rfl rfl (by norm_num [dstMin])
      (by norm_num [dstMax]) (fun q hq => canIff_F32_U32 q)
      (fun q => rfl) (fun t h1 h2 => truncCast_U32 t h1 h2)
      (fun q hq h0 => decodeF32_sign (bits % 2 ^ 32) q hq h0)
    exact ⟨h.1, h.2, truncPair_inf .F32 .U32 bits 1 rfl (Or.inl rfl) rfl rfl
      (fun s => by cases s <;> rfl) (fun s hs => (decodeF32_inf (bits % 2 ^ 32) s hs).symm)⟩
  | 2, hp =>
    simp only [truncSatSub, Option.some.injEq, Prod.mk.injEq] at hp
    obtain ⟨rfl, rfl⟩ := hp
    have h := truncPair_spec .F64 .I32 bits 2 rfl (Or.inr rfl) rfl rfl (by norm_num [dstMin])
      (by norm_num [dstMax]) (fun q hq => canIff_F64_I32 q)
      (fun q => rfl) (fun t h1 h2 => truncCast_I32 t)
      (fun q hq h0 => decodeF64_sign bits q hq h0)
    exact ⟨h.1, h.2, truncPair_inf .F64 .I32 bits 2 rfl (Or.inr rfl) rfl rfl
      (fun s => by cases s <;> rfl) (fun s hs => (decodeF64_inf bits s hs).symm)⟩
  | 3, hp =>
    simp only [truncSatSub, Option.some.injEq, Prod.mk.injEq] at hp
    obtain ⟨rfl, rfl⟩ := hp
    have h := truncPair_spec .F64 .U32 bits 3 rfl (Or.inr rfl) rfl rfl (by norm_num [dstMin])
      (by norm_num [dstMax]) (fun q hq => canIff_F64_U32 q)
      (fun q => rfl) (fun t h1 h2 => truncCast_U32 t h1 h2)
      (fun q hq h0 => decodeF64_sign bits q hq h0)
    exact ⟨h.1, h.2, truncPair_inf .F64 .U32 bits 3 rfl (Or.inr rfl) rfl rfl
      (fun s => by cases s <;> rfl) (fun s hs => (decodeF64_inf bits s hs).symm)⟩
  | 4, hp =>
    simp only [truncSatSub, Option.some.injEq, Prod.mk.injEq] at hp
    obtain ⟨rfl, rfl⟩ := hp
    have h := truncPair_spec .F32 .I64 bits 4 rfl (Or.inl rfl) rfl rfl (by norm_num [dstMin])
      (by norm_num [dstMax]) (fun q hq => canIff_F32_I64 (bits % 2 ^ 32) q hq)
      (fun q => rfl) (fun t h1 h2 => truncCast_I64 t)
      (fun q hq h0 => decodeF32_sign (bits % 2 ^ 32) q hq h0)
    exact ⟨h.1, h.2, truncPair_inf .F32 .I64 bits 4 rfl (Or.inl rfl) rfl rfl
      (fun s => by cases s <;> rfl) (fun s hs => (decodeF32_inf (bits % 2 ^ 32) s hs).symm)⟩
  | 5, hp =>
    simp only [truncSatSub, Option.some.injEq, Prod.mk.injEq] at hp
    obtain ⟨rfl, rfl⟩ := hp
    have h := truncPair_spec .F32 .U64 bits 5 rfl (Or.inl rfl) rfl rfl (by norm_num [dstMin])
      (by norm_num [dstMax]) (fun q hq => canIff_F32_U64 q)
      (fun q => rfl) (fun t h1 h2 => truncCast_U64 t h1 h2)
      (fun q hq h0 => decodeF32_sign (bits % 2 ^ 32) q hq h0)
    exact ⟨h.1, h.2, truncPair_inf .F32 .U64 bits 5 rfl (Or.inl rfl) rfl rfl
      (fun s => by cases s <;> rfl) (fun s hs => (decodeF32_inf (bits % 2 ^ 32) s hs).symm)⟩
  | 6, hp =>
    simp only [truncSatSub, Option.some.injEq, Prod.mk.injEq] at hp
    obtain ⟨rfl, rfl⟩ := hp
    have h := truncPair_spec .F64 .I64 bits 6 rfl (Or.inr rfl) rfl rfl (by norm_num [dstMin])
      (by norm_num [dstMax]) (fun q hq => canIff_F64_I64 bits q hq)
      (fun q => rfl) (fun t h1 h2 => truncCast_I64 t)
      (fun q hq h0 => decodeF64_sign bits q hq h0)
    exact ⟨h.1, h.2, truncPair_inf .F64 .I64 bits 6 rfl (Or.inr rfl) rfl rfl
      (fun s => by cases s <;> rfl) (fun s hs => (decodeF64_inf bits s hs).symm)⟩
  | 7, hp =>
    simp only [truncSatSub, Option.some.injEq, Prod.mk.injEq] at hp
    obtain ⟨rfl, rfl⟩ := hp
    have h := truncPair_spec .F64 .U64 bits 7 rfl (Or.inr rfl) rfl rfl (by norm_num [dstMin])
      (by norm_num [dstMax]) (fun q hq => canIff_F64_U64 q)
      (fun q => rfl) (fun t h1 h2 => truncCast_U64 t h1 h2)
      (fun q hq h0 => decodeF64_sign bits q hq h0)
    exact ⟨h.1, h.2, truncPair_inf .F64 .U64 bits 7 rfl (Or.inr rfl) rfl rfl
      (fun s => by cases s <;> rfl) (fun s hs => (decodeF64_inf bits s hs).symm)⟩
  | (n + 8), hp =>
    exact absurd hp (by simp [truncSatSub])

/-- Witness for C7 at concrete inputs: a float32 NaN (pattern
`0x7FC00000`) traps the conversion and saturates to 0, and a float32
positive infinity (pattern `0x7F800000`) traps "integer overflow" and
saturates to the `i32` maximum. -/
theorem vm_c7_trunc_spec_witness :
    (truncOp .F32 .I32 2143289344 = .trap .invalidIntConversion
        ∧ truncSatOp 0 2143289344 = some 0)
      ∧ (truncOp .F32 .I32 2139095040 = .trap .integerOverflow
        ∧ truncSatOp 0 2139095040 = some 2147483647) := by
  constructor
  · exact (vm_c7_trunc_spec.2.2 0 .F32 .I32 rfl 2143289344).1 (by decide)
  · have h := (vm_c7_trunc_spec.2.2 0 .F32 .I32 rfl 2139095040).2.2 false (by decide)
    exact ⟨h.1, by rw [h.2]; rfl⟩

/-! ## Claim C8 : module decoding (wasm module reader) -/

/-- Errors arising while decoding a module.  `eof` models `io.EOF`;
`badMagic`, `badVersion`, `sectionOrder` and `unknownSection` model the
four distinguished error values of `readMagic`, `readVersion` and
`readSection`; `other` models every remaining `errors.New`/`fmt.Errorf`
value; `panicErr` marks a Go runtime panic raised during decoding (an
unrecovered crash, not an error return). -/
inductive ReadErr where
  | eof
  | badMagic
  | badVersion
  | sectionOrder
  | unknownSection
  | other
  | panicErr
  deriving DecidableEq, Repr

/-- `util.ByteReader`: a byte slice and a cursor. -/
structure ByteReader where
  b : List Nat
  curPos : Nat
  deriving DecidableEq, Repr

/-- `ByteReader.Read`: the next `n` bytes, or `io.EOF` when fewer than
`n` remain. -/
def ByteReader.read (wr : ByteReader) (n : Nat) : Except ReadErr (List Nat × ByteReader) :=
  if wr.curPos + n > wr.b.length then .error .eof
  else .ok ((wr.b.drop wr.curPos).take n, { wr with curPos := wr.curPos + n })

/-- `ByteReader.ReadOne`: one byte, or `io.EOF` at the end of the slice.
The source reads `wr.b[wr.curPos : wr.curPos+2][0]`, which additionally
requires two bytes of CAPACITY past `curPos` and panics when the
underlying array ends flush one byte after the slice.  Capacity is not
part of a slice value as modelled here (`List Nat`), so `readOne`
returns `b[curPos]` whenever the bounds check of the source passes: the
model agrees with Go whenever capacity suffices, and every concrete
input used below keeps all `ReadOne` calls two bytes clear of the end of
the enclosing buffer. -/
def ByteReader.readOne (wr : ByteReader) : Except ReadErr (Nat × ByteReader) :=
  if wr.curPos + 1 > wr.b.length then .error .eof
  else .ok (wr.b.getD wr.curPos 0, { wr with curPos := wr.curPos + 1 })

/-- `ByteReader.CopyAll`: the remaining bytes `wr.b[wr.curPos:len]`. -/
def ByteReader.copyAll (wr : ByteReader) : List Nat :=
  wr.b.drop wr.curPos

/-- Modelled from the spec: the module reader calls a `ByteReader`
flavour of `leb128.ReadUint32`/`ReadInt32`/`ReadInt64` that is not under
src/ (src/leb128 only has the `[]byte` flavour).  It is reconstructed
exactly as the sibling adapter in src/wasm/read.go does for its own
reader: run the `[]byte` `leb128.Read` on the remaining bytes and
advance the cursor by the returned byte count.  Note the `[]byte`
`leb128.Read` never reports end of input: on a truncated (or empty)
encoding it returns the bits accumulated so far. -/
def readLebBR (wr : ByteReader) (maxbit : Nat) (hasSign : Bool) :
    Except ReadErr (Int × ByteReader) :=
  match lebRead (wr.b.drop wr.curPos) maxbit hasSign with
  | none => .error .other
  | some (bytecnt, v) => .ok (v, { wr with curPos := wr.curPos + bytecnt })

/-- `leb128.ReadUint32` over a `ByteReader`: `uint32(result)`. -/
def lebReadUint32BR (wr : ByteReader) : Except ReadErr (Nat × ByteReader) :=
  match readLebBR wr 32 false with
  | .error e => .error e
  | .ok (v, wr1) => .ok (toUint32 v, wr1)

/-- `binary.LittleEndian.Uint32` of (at least) four bytes. -/
def littleEndianU32 (l : List Nat) : Nat :=
  l.getD 0 0 % 256 + l.getD 1 0 % 256 * 256 + l.getD 2 0 % 256 * 65536
    + l.getD 3 0 % 256 * 16777216

/-- `binary.LittleEndian.Uint64` of (at least) eight bytes. -/
def littleEndianU64 (l : List Nat) : Nat :=
  littleEndianU32 l + littleEndianU32 (l.drop 4) * 4294967296

/-- `Mem` (module.go): a memory type is its limits. -/
structure Mem where
  Limits : Limits
  deriving DecidableEq, Repr

/-- `Table` (module.go): element type byte and limits. -/
structure Table where
  ElemType : Nat
  Limits : Limits
  deriving DecidableEq, Repr

/-- `GlobalType` (module.go): a value type byte and a mutability byte. -/
structure GlobalType where
  ValueType : Nat
  Mutability : Nat
  deriving DecidableEq, Repr

/-- `Global` (module.go); the source field `Type` is spelled `Typ` here
(`Type` is reserved in Lean). -/
structure Global where
  Typ : GlobalType
  Init : List Nat
  deriving DecidableEq, Repr

/-- `ImportDesc` (module.go); the three pointers are options. -/
structure ImportDesc where
  Kind : Nat
  TypeIdx : Nat
  Table : Option Table
  Mem : Option Mem
  GlobalType : Option GlobalType
  deriving DecidableEq, Repr

/-- `Import` (module.go); Go strings are byte lists here. -/
structure Import where
  ModuleName : List Nat
  FieldName : List Nat
  ImportDesc : ImportDesc
  deriving DecidableEq, Repr

/-- `ExportDesc` (module.go). -/
structure ExportDesc where
  Kind : Nat
  Idx : Nat
  deriving DecidableEq, Repr

/-- `Export` (module.go). -/
structure Export where
  Name : List Nat
  Desc : ExportDesc
  deriving DecidableEq, Repr

/-- `Element` (module.go): `Offset` is the list of function indices. -/
structure Element where
  TableIdx : Nat
  Init : List Nat
  Offset : List Nat
  deriving DecidableEq, Repr

/-- `Local` (module.go): a run of `Count` locals of one value type. -/
structure Local where
  Count : Nat
  ValueType : Nat
  deriving DecidableEq, Repr

/-- `Code` (module.go): one entry of the code section. -/
structure Code where
  Size : Nat
  Locals : List Local
  Exprs : List Nat
  deriving DecidableEq, Repr

/-- `Data` (module.go): one entry of the data section. -/
structure Data where
  MemIdx : Nat
  Offset : List Nat
  Init : List Nat
  deriving DecidableEq, Repr

/-- `Function` (index.go); the source field `Type` is spelled `Typ`. -/
structure Function where
  Typ : FuncType
  Code : Code
  Name : List Nat
  deriving DecidableEq, Repr

/-- `TypeSec` (module.go). -/
structure TypeSec where
  FuncTypes : List FuncType
  deriving DecidableEq, Repr

/-- `ImportSec` (module.go). -/
structure ImportSec where
  Imports : List Import
  deriving DecidableEq, Repr

/-- `FuncSec` (module.go). -/
structure FuncSec where
  TypeIndices : List Nat
  deriving DecidableEq, Repr

/-- `TableSec` (module.go). -/
structure TableSec where
  Tables : List Table
  deriving DecidableEq, Repr

/-- `MemSec` (module.go). -/
structure MemSec where
  Mems : List Mem
  deriving DecidableEq, Repr

/-- `GlobalSec` (module.go). -/
structure GlobalSec where
  Globals : List Global
  deriving DecidableEq, Repr

/-- `ExportSec` (module.go); the Go map `ExportMap` is modelled as its
insertion list: adding a key that is already present replaces it. -/
structure ExportSec where
  ExportMap : List (List Nat × Export)
  deriving DecidableEq, Repr

/-- `StartSec` (module.go). -/
structure StartSec where
  FuncIdx : Nat
  deriving DecidableEq, Repr

/-- `ElementSec` (module.go). -/
structure ElementSec where
  Elements : List Element
  deriving DecidableEq, Repr

/-- `CodeSec` (module.go). -/
structure CodeSec where
  Codes : List Code
  deriving DecidableEq, Repr

/-- `DataSec` (module.go). -/
structure DataSec where
  DataSegments : List Data
  deriving DecidableEq, Repr

/-- `Module` (index.go); named `WModule` because `Module` is taken by
the library.  The eleven section pointers are options. -/
structure WModule where
  Version : Nat
  TypeSec : Option TypeSec
  ImportSec : Option ImportSec
  FuncSec : Option FuncSec
  TableSec : Option TableSec
  MemSec : Option MemSec
  GlobalSec : Option GlobalSec
  ExportSec : Option ExportSec
  StartSec : Option StartSec
  ElementSec : Option ElementSec
  CodeSec : Option CodeSec
  DataSec : Option DataSec
  FunctionIndexSpace : List Function
  GlobalIndexSpace : List Global
  TableIndexSpace : List (List Nat)
  LinearMemoryIndexSpace : List (List Nat)
  deriving DecidableEq, Repr

/-- The zero `Module{}` that `ReadModule` starts from. -/
def emptyWModule : WModule :=
  ⟨0, none, none, none, none, none, none, none, none, none, none, none, [], [], [], []⟩

/-- `readValueType`: one byte, which must be `0x7F`/`0x7E`/`0x7D`/`0x7C`. -/
def readValueType (br : ByteReader) : Except ReadErr (Nat × ByteReader) := do
  let (v, br) ← br.readOne
  if v ≠ 0x7F ∧ v ≠ 0x7E ∧ v ≠ 0x7D ∧ v ≠ 0x7C then throw .other
  pure (v, br)

/-- The inner loop of `readSectionType` over a declared count of value
types. -/
def readValueTypes (n : Nat) (acc : List Nat) (br : ByteReader) :
    Except ReadErr (List Nat × ByteReader) :=
  match n with
  | 0 => .ok (acc, br)
  | k + 1 => do
    let (v, br) ← readValueType br
    readValueTypes k (acc ++ [v]) br

/-- `readElemType`: one byte, which must be `0x70` (funcref). -/
def readElemType (br : ByteReader) : Except ReadErr (Nat × ByteReader) := do
  let (v, br) ← br.readOne
  if v ≠ 0x70 then throw .other
  pure (v, br)

/-- `readLimits`: a flag byte `0x00` (min only) or `0x01` (min and max);
any other flag is an error.  Absent fields keep the Go zero value 0. -/
def readLimits (br : ByteReader) : Except ReadErr (Limits × ByteReader) := do
  let (flag, br) ← br.readOne
  if flag = 0 then
    let (mn, br) ← lebReadUint32BR br
    pure (⟨flag, mn, 0⟩, br)
  else if flag = 1 then
    let (mn, br) ← lebReadUint32BR br
    let (mx, br) ← lebReadUint32BR br
    pure (⟨flag, mn, mx⟩, br)
  else throw .other

/-- `readMut`: one byte, which must be `0x00` or `0x01`. -/
def readMut (br : ByteReader) : Except ReadErr (Nat × ByteReader) := do
  let (v, br) ← br.readOne
  if v ≠ 0 ∧ v ≠ 1 then throw .other
  pure (v, br)

/-- `readGlobalType`: a value type then a mutability byte. -/
def readGlobalType (br : ByteReader) : Except ReadErr (GlobalType × ByteReader) := do
  let (vt, br) ← readValueType br
  let (mu, br) ← readMut br
  pure (⟨vt, mu⟩, br)

/-- Continuation-byte test of Go `unicode/utf8`: `0x80 ≤ c ≤ 0xBF`. -/
def utf8Cont (c : Nat) : Bool := decide (0x80 ≤ c ∧ c ≤ 0xBF)

/-- Go `utf8.Valid`, byte for byte: ASCII, two-byte leads `0xC2`-`0xDF`,
three-byte leads `0xE0`-`0xEF` (with the narrowed second-byte ranges of
`0xE0` and `0xED`), four-byte leads `0xF0`-`0xF4` (with the narrowed
second-byte ranges of `0xF0` and `0xF4`); anything else is invalid. -/
def utf8Valid (l : List Nat) : Bool :=
  match l with
  | [] => true
  | c :: rest =>
    if c < 0x80 then utf8Valid rest
    else if 0xC2 ≤ c ∧ c ≤ 0xDF then
      match rest with
      | c1 :: rest2 => utf8Cont c1 && utf8Valid rest2
      | [] => false
    else if c = 0xE0 ∨ (0xE1 ≤ c ∧ c ≤ 0xEC) ∨ c = 0xED ∨ (0xEE ≤ c ∧ c ≤ 0xEF) then
      match rest with
      | c1 :: c2 :: rest3 =>
        (if c = 0xE0 then decide (0xA0 ≤ c1 ∧ c1 ≤ 0xBF)
         else if c = 0xED then decide (0x80 ≤ c1 ∧ c1 ≤ 0x9F)
         else utf8Cont c1) && utf8Cont c2 && utf8Valid rest3
      | _ => false
    else if c = 0xF0 ∨ (0xF1 ≤ c ∧ c ≤ 0xF3) ∨ c = 0xF4 then
      match rest with
      | c1 :: c2 :: c3 :: rest4 =>
        (if c = 0xF0 then decide (0x90 ≤ c1 ∧ c1 ≤ 0xBF)
         else if c = 0xF4 then decide (0x80 ≤ c1 ∧ c1 ≤ 0x8F)
         else utf8Cont c1) && utf8Cont c2 && utf8Cont c3 && utf8Valid rest4
      | _ => false
    else false
termination_by l.length
decreasing_by all_goals simp <;> omega

/-- `readName`: a length, that many bytes, and a UTF-8 validity check. -/
def readName (br : ByteReader) : Except ReadErr (List Nat × ByteReader) := do
  let (byteLen, br) ← lebReadUint32BR br
  let (bytes, br) ← br.read byteLen
  if utf8Valid bytes = false then throw .other
  pure (bytes, br)

/-- The byte loop of `readExprs`: read one opcode at a time, appending
each (the terminating `0x0B` included), until `0x0B`.  The fuel starts
at one past the reader length and cannot run out, because every
iteration consumes a byte or ends in `io.EOF`. -/
def readExprsLoop (fuel : Nat) (br : ByteReader) (acc : List Nat) :
    Except ReadErr (List Nat × ByteReader) :=
  match fuel with
  | 0 => .error .other
  | fuel + 1 =>
    match br.readOne with
    | .error e => .error e
    | .ok (opc, br) =>
      if opc = 0x0B then .ok (acc ++ [opc], br)
      else readExprsLoop fuel br (acc ++ [opc])

/-- `readExprs` (module.go). -/
def readExprs (br : ByteReader) : Except ReadErr (List Nat × ByteReader) :=
  readExprsLoop (br.b.length + 1) br []

/-- The counting loop of `readLocals`. -/
def readLocalsLoop (n : Nat) (acc : List Local) (br : ByteReader) :
    Except ReadErr (List Local × ByteReader) :=
  match n with
  | 0 => .ok (acc, br)
  | k + 1 => do
    let (cnt, br) ← lebReadUint32BR br
    let (vt, br) ← readValueType br
    readLocalsLoop k (acc ++ [⟨cnt, vt⟩]) br

/-- `readLocals` (module.go). -/
def readLocals (br : ByteReader) : Except ReadErr (List Local × ByteReader) := do
  let (localCount, br) ← lebReadUint32BR br
  readLocalsLoop localCount [] br

/-- The counting loop of `readSectionType`: form byte `0x60`, parameter
types, return types, per declared function type. -/
def readFuncTypes (n : Nat) (acc : List FuncType) (br : ByteReader) :
    Except ReadErr (List FuncType × ByteReader) :=
  match n with
  | 0 => .ok (acc, br)
  | k + 1 => do
    let (form, br) ← br.readOne
    if form ≠ 0x60 then throw .other
    let (pc, br) ← lebReadUint32BR br
    let (ps, br) ← readValueTypes pc [] br
    let (rc, br) ← lebReadUint32BR br
    let (rs, br) ← readValueTypes rc [] br
    readFuncTypes k (acc ++ [⟨ps, rs⟩]) br

/-- `readSectionType` (module.go). -/
def readSectionType (m : WModule) (br : ByteReader) : Except ReadErr WModule := do
  let (vectorLen, br) ← lebReadUint32BR br
  let (fts, _) ← readFuncTypes vectorLen [] br
  pure { m with TypeSec := some ⟨fts⟩ }

/-- The counting loop of `readSectionImport`: two names, a kind byte,
and the kind-specific description. -/
def readImports (n : Nat) (acc : List Import) (br : ByteReader) :
    Except ReadErr (List Import × ByteReader) :=
  match n with
  | 0 => .ok (acc, br)
  | k + 1 => do
    let (moduleName, br) ← readName br
    let (fieldName, br) ← readName br
    let (kind, br) ← br.readOne
    if kind = 0 then
      let (typeIdx, br) ← lebReadUint32BR br
      readImports k (acc ++ [⟨moduleName, fieldName, ⟨kind, typeIdx, none, none, none⟩⟩]) br
    else if kind = 1 then
      let (et, br) ← readElemType br
      let (lim, br) ← readLimits br
      readImports k (acc ++ [⟨moduleName, fieldName, ⟨kind, 0, some ⟨et, lim⟩, none, none⟩⟩]) br
    else if kind = 2 then
      let (lim, br) ← readLimits br
      readImports k (acc ++ [⟨moduleName, fieldName, ⟨kind, 0, none, some ⟨lim⟩, none⟩⟩]) br
    else if kind = 3 then
      let (gt, br) ← readGlobalType br
      readImports k (acc ++ [⟨moduleName, fieldName, ⟨kind, 0, none, none, some gt⟩⟩]) br
    else throw .other

/-- `readSectionImport` (module.go). -/
def readSectionImport (m : WModule) (br : ByteReader) : Except ReadErr WModule := do
  let (importCount, br) ← lebReadUint32BR br
  let (imports, _) ← readImports importCount [] br
  pure { m with ImportSec := some ⟨imports⟩ }

/-- The counting loop of `readSectionFunction`: one type index each. -/
def readTypeIndices (n : Nat) (acc : List Nat) (br : ByteReader) :
    Except ReadErr (List Nat × ByteReader) :=
  match n with
  | 0 => .ok (acc, br)
  | k + 1 => do
    let (idx, br) ← lebReadUint32BR br
    readTypeIndices k (acc ++ [idx]) br

/-- `readSectionFunction` (module.go). -/
def readSectionFunction (m : WModule) (br : ByteReader) : Except ReadErr WModule := do
  let (typeIdxCount, br) ← lebReadUint32BR br
  let (idxs, _) ← readTypeIndices typeIdxCount [] br
  pure { m with FuncSec := some ⟨idxs⟩ }

/-- The counting loop of `readSectionTable`. -/
def readTables (n : Nat) (acc : List Table) (br : ByteReader) :
    Except ReadErr (List Table × ByteReader) :=
  match n with
  | 0 => .ok (acc, br)
  | k + 1 => do
    let (et, br) ← readElemType br
    let (lim, br) ← readLimits br
    readTables k (acc ++ [⟨et, lim⟩]) br

/-- `readSectionTable` (module.go). -/
def readSectionTable (m : WModule) (br : ByteReader) : Except ReadErr WModule := do
  let (tableCount, br) ← lebReadUint32BR br
  let (tables, _) ← readTables tableCount [] br
  pure { m with TableSec := some ⟨tables⟩ }

/-- The counting loop of `readSectionMemory`. -/
def readMems (n : Nat) (acc : List Mem) (br : ByteReader) :
    Except ReadErr (List Mem × ByteReader) :=
  match n with
  | 0 => .ok (acc, br)
  | k + 1 => do
    let (lim, br) ← readLimits br
    readMems k (acc ++ [⟨lim⟩]) br

/-- `readSectionMemory` (module.go). -/
def readSectionMemory (m : WModule) (br : ByteReader) : Except ReadErr WModule := do
  let (memCount, br) ← lebReadUint32BR br
  let (mems, _) ← readMems memCount [] br
  pure { m with MemSec := some ⟨mems⟩ }

/-- The counting loop of `readSectionGlobal`: a global type and an init
expression each. -/
def readGlobals (n : Nat) (acc : List Global) (br : ByteReader) :
    Except ReadErr (List Global × ByteReader) :=
  match n with
  | 0 => .ok (acc, br)
  | k + 1 => do
    let (gt, br) ← readGlobalType br
    let (gInit, br) ← readExprs br
    readGlobals k (acc ++ [⟨gt, gInit⟩]) br

/-- `readSectionGlobal` (module.go). -/
def readSectionGlobal (m : WModule) (br : ByteReader) : Except ReadErr WModule := do
  let (globalCount, br) ← lebReadUint32BR br
  let (globals, _) ← readGlobals globalCount [] br
  pure { m with GlobalSec := some ⟨globals⟩ }

/-- `m.ExportSec.ExportMap[name] = export` on the insertion-list model
of the Go map: drop any entry with the same key, then append. -/
def exportMapInsert (mp : List (List Nat × Export)) (k : List Nat) (v : Export) :
    List (List Nat × Export) :=
  mp.filter (fun kv => decide (kv.1 ≠ k)) ++ [(k, v)]

/-- The counting loop of `readSectionExport`: a name, a kind byte in
`0x00`-`0x03`, and an index each. -/
def readExports (n : Nat) (acc : List (List Nat × Export)) (br : ByteReader) :
    Except ReadErr (List (List Nat × Export) × ByteReader) :=
  match n with
  | 0 => .ok (acc, br)
  | k + 1 => do
    let (name, br) ← readName br
    let (kind, br) ← br.readOne
    if kind ≠ 0 ∧ kind ≠ 1 ∧ kind ≠ 2 ∧ kind ≠ 3 then throw .other
    let (idx, br) ← lebReadUint32BR br
    readExports k (exportMapInsert acc name ⟨name, ⟨kind, idx⟩⟩) br

/-- `readSectionExport` (module.go). -/
def readSectionExport (m : WModule) (br : ByteReader) : Except ReadErr WModule := do
  let (exportCount, br) ← lebReadUint32BR br
  let (exports, _) ← readExports exportCount [] br
  pure { m with ExportSec := some ⟨exports⟩ }

/-- `readSectionStart` (module.go). -/
def readSectionStart (m : WModule) (br : ByteReader) : Except ReadErr WModule := do
  let (funcIdx, _) ← lebReadUint32BR br
  pure { m with StartSec := some ⟨funcIdx⟩ }

/-- The inner function-index loop of `readSectionElement`. -/
def readFuncIdxes (n : Nat) (acc : List Nat) (br : ByteReader) :
    Except ReadErr (List Nat × ByteReader) :=
  match n with
  | 0 => .ok (acc, br)
  | k + 1 => do
    let (idx, br) ← lebReadUint32BR br
    readFuncIdxes k (acc ++ [idx]) br

/-- The counting loop of `readSectionElement`: a table index, an init
expression, and a vector of function indices each. -/
def readElements (n : Nat) (acc : List Element) (br : ByteReader) :
    Except ReadErr (List Element × ByteReader) :=
  match n with
  | 0 => .ok (acc, br)
  | k + 1 => do
    let (tableIdx, br) ← lebReadUint32BR br
    let (eInit, br) ← readExprs br
    let (funcIdxCount, br) ← lebReadUint32BR br
    let (funcIdxes, br) ← readFuncIdxes funcIdxCount [] br
    readElements k (acc ++ [⟨tableIdx, eInit, funcIdxes⟩]) br

/-- `readSectionElement` (module.go). -/
def readSectionElement (m : WModule) (br : ByteReader) : Except ReadErr WModule := do
  let (elementCount, br) ← lebReadUint32BR br
  let (elements, _) ← readElements elementCount [] br
  pure { m with ElementSec := some ⟨elements⟩ }

/-- The counting loop of `readSectionCode`: a size, that many body
bytes, the locals parsed from a fresh reader over the body, and the
remaining bytes with the terminator stripped as `Exprs`.  The source
strips the terminator with `exprs[:len(exprs)-1]`, which is a runtime
panic when the locals consumed the whole body. -/
def readCodes (n : Nat) (acc : List Code) (br : ByteReader) :
    Except ReadErr (List Code × ByteReader) :=
  match n with
  | 0 => .ok (acc, br)
  | k + 1 => do
    let (size, br) ← lebReadUint32BR br
    let (codeBody, br) ← br.read size
    match readLocals ⟨codeBody, 0⟩ with
    | .error e => throw e
    | .ok (locals, code) =>
      let exprs := code.copyAll
      if exprs.length = 0 then throw .panicErr
      else readCodes k (acc ++ [⟨size, locals, exprs.dropLast⟩]) br

/-- `readSectionCode` (module.go). -/
def readSectionCode (m : WModule) (br : ByteReader) : Except ReadErr WModule := do
  let (codeCount, br) ← lebReadUint32BR br
  let (codes, _) ← readCodes codeCount [] br
  pure { m with CodeSec := some ⟨codes⟩ }

/-- The counting loop of `readSectionData`: a memory index, an offset
expression, and a byte vector each.  The source assigns
`..., err = br.Read(byteCount)` as the last statement of the loop body
and never checks that `err`: a failed byte-vector read leaves `Init`
empty, does not advance the reader, and the loop carries on. -/
def readDataSegments (n : Nat) (acc : List Data) (br : ByteReader) :
    Except ReadErr (List Data × ByteReader) :=
  match n with
  | 0 => .ok (acc, br)
  | k + 1 => do
    let (memIdx, br) ← lebReadUint32BR br
    let (offset, br) ← readExprs br
    let (byteCount, br) ← lebReadUint32BR br
    match br.read byteCount with
    | .error _ => readDataSegments k (acc ++ [⟨memIdx, offset, []⟩]) br
    | .ok (dInit, br) => readDataSegments k (acc ++ [⟨memIdx, offset, dInit⟩]) br

/-- `readSectionData` (module.go). -/
def readSectionData (m : WModule) (br : ByteReader) : Except ReadErr WModule := do
  let (dataCount, br) ← lebReadUint32BR br
  let (segs, _) ← readDataSegments dataCount [] br
  pure { m with DataSec := some ⟨segs⟩ }

/-- The result of `ExecInitExpr`, tagged with the Go dynamic type of the
returned `interface{}` (the type assertions in the populate phase
dispatch on it). -/
inductive InitVal where
  | i32 (v : Int)
  | i64 (v : Int)
  | f32 (bits : Nat)
  | f64 (bits : Nat)
  deriving DecidableEq, Repr

/-- `Module.GetGlobal` (index.go): `nil` out of range. -/
def GetGlobal (m : WModule) (i : Nat) : Option Global :=
  m.GlobalIndexSpace[i]?

/-- The opcode loop of `ExecInitExpr` (index.go): constants push their
64-bit slot pattern and record the value type; `get_global` only
records the type of the named global; `0x0B` does nothing (the `break`
breaks the Go `switch`, not the loop); `io.EOF` from the top `ReadOne`
ends the loop.  State is the stack and `lastVal` (Go zero value 0).
Fuel starts one past the expression length and cannot run out. -/
def execInitLoop (m : WModule) (fuel : Nat) (wr : ByteReader) (stack : List Nat)
    (lastVal : Nat) : Except ReadErr (List Nat × Nat) :=
  match fuel with
  | 0 => .error .other
  | fuel + 1 =>
    match wr.readOne with
    | .error _ => .ok (stack, lastVal)
    | .ok (b, wr) =>
      if b = 0x41 then
        match readLebBR wr 32 true with
        | .error e => .error e
        | .ok (i, wr) =>
          execInitLoop m fuel wr (stack ++ [toUint64 (toInt32 (toUint32 i))]) 0x7F
      else if b = 0x42 then
        match readLebBR wr 64 true with
        | .error e => .error e
        | .ok (i, wr) => execInitLoop m fuel wr (stack ++ [toUint64 i]) 0x7E
      else if b = 0x43 then
        match wr.read 4 with
        | .error e => .error e
        | .ok (bs, wr) => execInitLoop m fuel wr (stack ++ [littleEndianU32 bs]) 0x7D
      else if b = 0x44 then
        match wr.read 8 with
        | .error e => .error e
        | .ok (bs, wr) => execInitLoop m fuel wr (stack ++ [littleEndianU64 bs]) 0x7C
      else if b = 0x23 then
        match lebReadUint32BR wr with
        | .error e => .error e
        | .ok (index, wr) =>
          match GetGlobal m index with
          | none => .error .other
          | some g => execInitLoop m fuel wr stack g.Typ.ValueType
      else if b = 0x0B then execInitLoop m fuel wr stack lastVal
      else .error .other

/-- `Module.ExecInitExpr` (index.go): empty expressions error; an empty
final stack yields `nil`; otherwise the top slot is returned under the
type recorded in `lastVal`, and any other `lastVal` is the `panic` of
the final `switch`. -/
def ExecInitExpr (m : WModule) (expr : List Nat) : Except ReadErr (Option InitVal) :=
  if expr.length = 0 then .error .other
  else
    match execInitLoop m (expr.length + 1) ⟨expr, 0⟩ [] 0 with
    | .error e => .error e
    | .ok (stack, lastVal) =>
      match stack.getLast? with
      | none => .ok none
      | some v =>
        if lastVal = 0x7F then .ok (some (.i32 (toInt32 (v % 2 ^ 32))))
        else if lastVal = 0x7E then .ok (some (.i64 (toInt64 v)))
        else if lastVal = 0x7D then .ok (some (.f32 (v % 2 ^ 32)))
        else if lastVal = 0x7C then .ok (some (.f64 v))
        else .error .panicErr

/-- `populateGlobals` (index.go). -/
def populateGlobals (m : WModule) : Except ReadErr WModule :=
  match m.GlobalSec with
  | none => .ok m
  | some gs => .ok { m with GlobalIndexSpace := m.GlobalIndexSpace ++ gs.Globals }

/-- The loop of `populateFunctions` over `FuncSec.TypeIndices`: a type
index past the type section is an error; the unguarded
`m.CodeSec.Codes[codeIndex]` is a runtime panic when the code section is
absent or shorter than the function section. -/
def populateFunctionsLoop (fts : List FuncType) (codes : Option (List Code))
    (idxs : List Nat) (codeIndex : Nat) (acc : List Function) :
    Except ReadErr (List Function) :=
  match idxs with
  | [] => .ok acc
  | typeIndex :: rest =>
    if typeIndex ≥ fts.length then .error .other
    else
      match codes with
      | none => .error .panicErr
      | some cs =>
        if codeIndex ≥ cs.length then .error .panicErr
        else
          populateFunctionsLoop fts codes rest (codeIndex + 1)
            (acc ++ [⟨fts.getD typeIndex ⟨[], []⟩, cs.getD codeIndex ⟨0, [], []⟩, []⟩])

/-- `populateFunctions` (index.go).  The trailing reallocation of
`TypeIndices` copies the slice onto itself and is dropped here. -/
def populateFunctions (m : WModule) : Except ReadErr WModule :=
  match m.TypeSec, m.FuncSec with
  | some ts, some fs =>
    (match populateFunctionsLoop ts.FuncTypes (m.CodeSec.map CodeSec.Codes)
        fs.TypeIndices 0 [] with
     | .error e => .error e
     | .ok fns => .ok { m with FunctionIndexSpace := m.FunctionIndexSpace ++ fns })
  | _, _ => .ok m

/-- The table update of `populateTables`.  When the segment reaches past
the table a fresh array of length `offset + elems.length` is built and
the two `copy` calls lay down the segment first and the old table over
the front (so the old table wins on overlap); otherwise the segment is
copied into the table in place. -/
def tableMerge (table : List Nat) (offset : Nat) (elems : List Nat) : List Nat :=
  if offset + elems.length > table.length then
    (List.range (offset + elems.length)).map (fun i =>
      if i < table.length then table.getD i 0
      else if offset ≤ i ∧ i < offset + elems.length then elems.getD (i - offset) 0
      else 0)
  else
    (List.range table.length).map (fun i =>
      if offset ≤ i ∧ i < offset + elems.length then elems.getD (i - offset) 0
      else table.getD i 0)

/-- The loop of `populateTables` over the element segments: bound check
on the table index, init expression evaluated to an `int32` offset, and
the merge above applied to the indexed table. -/
def populateTablesLoop (m : WModule) (elems : List Element)
    (tis : List (List Nat)) : Except ReadErr (List (List Nat)) :=
  match elems with
  | [] => .ok tis
  | elem :: rest =>
    if elem.TableIdx ≥ tis.length then .error .other
    else
      match ExecInitExpr m elem.Init with
      | .error e => .error e
      | .ok (some (.i32 off)) =>
        populateTablesLoop m rest
          (tis.set elem.TableIdx
            (tableMerge (tis.getD elem.TableIdx []) (toUint32 off) elem.Offset))
      | .ok _ => .error .other

/-- `populateTables` (index.go). -/
def populateTables (m : WModule) : Except ReadErr WModule :=
  match m.TableSec, m.ElementSec with
  | some ts, some es =>
    if ts.Tables.length = 0 ∨ es.Elements.length = 0 then .ok m
    else
      (match populateTablesLoop m es.Elements m.TableIndexSpace with
       | .error e => .error e
       | .ok tis => .ok { m with TableIndexSpace := tis })
  | _, _ => .ok m

/-- The memory update of `populateLinearMemory`.  When the segment
reaches past the memory a fresh array is built, the old memory copied
first and the segment over it (so the segment wins on overlap);
otherwise the segment is copied in place.  Both cases leave the segment
bytes at `offset ≤ i < offset + init.length` and the old bytes
elsewhere. -/
def memMerge (memory : List Nat) (offset : Nat) (seg : List Nat) : List Nat :=
  (List.range (if offset + seg.length > memory.length
      then offset + seg.length else memory.length)).map (fun i =>
    if offset ≤ i ∧ i < offset + seg.length then seg.getD (i - offset) 0
    else memory.getD i 0)

/-- The loop of `populateLinearMemory` over the data segments: only
memory index 0 is legal, the offset expression must produce an `int32`,
and the merge above is applied to the single linear memory. -/
def populateLinearMemoryLoop (m : WModule) (segs : List Data)
    (lmis : List (List Nat)) : Except ReadErr (List (List Nat)) :=
  match segs with
  | [] => .ok lmis
  | entry :: rest =>
    if entry.MemIdx ≠ 0 then .error .other
    else
      match ExecInitExpr m entry.Offset with
      | .error e => .error e
      | .ok (some (.i32 off)) =>
        populateLinearMemoryLoop m rest
          (lmis.set entry.MemIdx
            (memMerge (lmis.getD entry.MemIdx []) (toUint32 off) entry.Init))
      | .ok _ => .error .other

/-- `populateLinearMemory` (index.go). -/
def populateLinearMemory (m : WModule) : Except ReadErr WModule :=
  match m.DataSec with
  | some ds =>
    if ds.DataSegments.length = 0 then .ok m
    else
      (match populateLinearMemoryLoop m ds.DataSegments m.LinearMemoryIndexSpace with
       | .error e => .error e
       | .ok lmis => .ok { m with LinearMemoryIndexSpace := lmis })
  | none => .ok m

/-- The population phase that `ReadModule` runs once `readSection`
reports `io.EOF`: the linear-memory index space becomes one empty entry,
the table index space one empty table per declared table, and the four
populate passes run in order. -/
def populateModule (m : WModule) : Except ReadErr WModule :=
  let m := { m with
    LinearMemoryIndexSpace := [[]]
    TableIndexSpace :=
      match m.TableSec with
      | some ts => List.replicate ts.Tables.length []
      | none => m.TableIndexSpace }
  match populateGlobals m with
  | .error e => .error e
  | .ok m =>
    match populateFunctions m with
    | .error e => .error e
    | .ok m =>
      match populateTables m with
      | .error e => .error e
      | .ok m => populateLinearMemory m

/-- `readMagic` (module.go): four bytes that must decode to
`0x6d736100` little-endian. -/
def readMagic (br : ByteReader) : Except ReadErr ByteReader :=
  match ByteReader.read br 4 with
  | .error e => .error e
  | .ok (b, br1) =>
    if littleEndianU32 b ≠ 0x6d736100 then .error .badMagic else .ok br1

/-- `readVersion` (module.go): four bytes stored into `m.Version`, which
must equal 1. -/
def readVersion (m : WModule) (br : ByteReader) :
    Except ReadErr (WModule × ByteReader) :=
  match ByteReader.read br 4 with
  | .error e => .error e
  | .ok (b, br1) =>
    if littleEndianU32 b ≠ 1 then .error .badVersion
    else .ok ({ m with Version := littleEndianU32 b }, br1)

/-- The section-order guard of `readSection` (module.go lines 303-307):
it fires only when a previous section exists, the PREVIOUS id is not 0,
the new id does not exceed it, and the new id is not 0.  A custom
section (id 0) therefore both passes the guard and, once stored as
`lastID`, disables it for the following section. -/
def sectionOrderBad (lastID : Option Nat) (id : Nat) : Bool :=
  match lastID with
  | some k => decide (k ≠ 0) && decide (k ≥ id) && decide (id ≠ 0)
  | none => false

/-- The `switch id` of `readSection`: custom sections are skipped, ids 1
to 11 dispatch to their parser, anything larger is the unknown-section
error. -/
def dispatchSection (m : WModule) (id : Nat) (sr : ByteReader) :
    Except ReadErr WModule :=
  if id = 0 then .ok m
  else if id = 1 then readSectionType m sr
  else if id = 2 then readSectionImport m sr
  else if id = 3 then readSectionFunction m sr
  else if id = 4 then readSectionTable m sr
  else if id = 5 then readSectionMemory m sr
  else if id = 6 then readSectionGlobal m sr
  else if id = 7 then readSectionExport m sr
  else if id = 8 then readSectionStart m sr
  else if id = 9 then readSectionElement m sr
  else if id = 10 then readSectionCode m sr
  else if id = 11 then readSectionData m sr
  else .error .unknownSection

/-- `readSection` (module.go): an id byte, the order guard, a length, a
body of that many bytes, and the dispatch above over a fresh reader on
the body.  In Go an error leaves the partially decoded section stored in
the module (the decoder mutates `m` in place); the model returns the
error with the module unmodified.  The difference is observable only
through the `io.EOF` path of `ReadModule`, which accepts a module whose
final section body was truncated; no theorem below traverses that
path. -/
def readSection (m : WModule) (br : ByteReader) (lastID : Option Nat) :
    Except ReadErr (Nat × WModule × ByteReader) :=
  match ByteReader.readOne br with
  | .error e => .error e
  | .ok (id, br1) =>
    if sectionOrderBad lastID id then .error .sectionOrder
    else
      match lebReadUint32BR br1 with
      | .error e => .error e
      | .ok (datalen, br2) =>
        match ByteReader.read br2 datalen with
        | .error e => .error e
        | .ok (body, br3) =>
          match dispatchSection m id ⟨body, 0⟩ with
          | .error e => .error e
          | .ok m1 => .ok (id, m1, br3)

/-- The section loop of `ReadModule`: `io.EOF` from anywhere inside
`readSection` ends the loop and runs the population phase; any other
error aborts.  Each successful `readSection` consumes at least the id
byte, so the fuel (one past the input length) cannot run out. -/
def readModuleLoop (fuel : Nat) (m : WModule) (br : ByteReader)
    (lastID : Option Nat) : Except ReadErr WModule :=
  match fuel with
  | 0 => .error .other
  | fuel + 1 =>
    match readSection m br lastID with
    | .error .eof => populateModule m
    | .error e => .error e
    | .ok (id, m1, br1) => readModuleLoop fuel m1 br1 (some id)

/-- `ReadModule` (module.go): magic, version, then the section loop. -/
def ReadModule (wasmBytes : List Nat) : Except ReadErr WModule :=
  match readMagic ⟨wasmBytes, 0⟩ with
  | .error e => .error e
  | .ok br =>
    match readVersion emptyWModule br with
    | .error e => .error e
    | .ok (m, br1) => readModuleLoop (wasmBytes.length + 1) m br1 none

/-- Claim-side scanner: the section ids of a byte stream, walking the
same framing as `readSection` (id byte, leb length, body) from the end
of the 8-byte header.  Stated only to exhibit which section ids a
counterexample module carries. -/
def sectionIdsLoop (fuel : Nat) (br : ByteReader) (acc : List Nat) : List Nat :=
  match fuel with
  | 0 => acc
  | fuel + 1 =>
    match ByteReader.readOne br with
    | .error _ => acc
    | .ok (id, br1) =>
      match lebReadUint32BR br1 with
      | .error _ => acc
      | .ok (datalen, br2) =>
        match ByteReader.read br2 datalen with
        | .error _ => acc
        | .ok (_, br3) => sectionIdsLoop fuel br3 (acc ++ [id])

/-- The section ids of a module byte stream. -/
def sectionIds (bs : List Nat) : List Nat :=
  sectionIdsLoop (bs.length + 1) ⟨bs, 8⟩ []

/-- If `readMagic` succeeds on a fresh reader, the input has at least 4
bytes, they decode to the wasm magic, and the cursor rests at 4. -/
theorem readMagic_ok (bs : List Nat) (br2 : ByteReader)
    (h : readMagic ⟨bs, 0⟩ = .ok br2) :
    4 ≤ bs.length ∧ littleEndianU32 (bs.take 4) = 0x6d736100 ∧ br2 = ⟨bs, 4⟩ := by
  simp only [readMagic, ByteReader.read] at h
  by_cases h4 : 0 + 4 > bs.length
  · rw [if_pos h4] at h
    simp at h
  · rw [if_neg h4] at h
    dsimp only at h
    rw [List.drop_zero] at h
    by_cases hmag : littleEndianU32 (bs.take 4) ≠ 0x6d736100
    · rw [if_pos hmag] at h
      simp at h
    · rw [if_neg hmag] at h
      injection h with h2
      refine ⟨by omega, not_not.mp hmag, h2.symm⟩

/-- If `readVersion` succeeds at cursor 4, the input has at least 8
bytes and bytes 4-7 decode to version 1. -/
theorem readVersion_ok (m : WModule) (bs : List Nat) (p : WModule × ByteReader)
    (h : readVersion m ⟨bs, 4⟩ = .ok p) :
    8 ≤ bs.length ∧ littleEndianU32 ((bs.drop 4).take 4) = 1 := by
  simp only [readVersion, ByteReader.read] at h
  by_cases h8 : 4 + 4 > bs.length
  · rw [if_pos h8] at h
    simp at h
  · rw [if_neg h8] at h
    dsimp only at h
    by_cases hv : littleEndianU32 ((bs.drop 4).take 4) ≠ 1
    · rw [if_pos hv] at h
      simp at h
    · exact ⟨by omega, not_not.mp hv⟩

/-- A 19-byte module: magic, version 1, then sections with ids 3 (empty
function section), 0 (custom), 3 again, 0 again.  The duplicated
non-custom id 3 violates the prescribed order, yet `ReadModule` accepts
the module, because the intervening custom section resets the order
baseline to 0.  (The final 1-byte custom body keeps every `ReadOne` of
the Go original two bytes clear of the end of the buffer, so the
acceptance is not an artifact of the capacity quirk noted at
`ByteReader.readOne`.) -/
def c8Bytes : List Nat :=
  [0x00, 0x61, 0x73, 0x6D, 0x01, 0x00, 0x00, 0x00,
   0x03, 0x01, 0x00, 0x00, 0x00, 0x03, 0x01, 0x00, 0x00, 0x01, 0xAA]

/-- C8 (counterexample).  The claim says decoding fails for every module
whose non-custom sections repeat a section id.  `c8Bytes` carries
sections with ids 3, 0, 3, 0 — the non-custom id 3 twice — and
`ReadModule` returns the decoded module: after a custom section (id 0)
the order guard `*lastID != 0` is disabled, so the duplicate passes. -/
theorem vm_c8_counterexample :
    sectionIds c8Bytes = [3, 0, 3, 0]
      ∧ ReadModule c8Bytes =
          .ok ⟨1, none, none, some ⟨[]⟩, none, none, none, none, none, none,
               none, none, [], [], [], [[]]⟩ :=
  ⟨rfl, rfl⟩

/-- C8 (amended).  `ReadModule` succeeds only on inputs of at least 8
bytes starting with magic `0x6d736100` and version 1 (little-endian);
`readSection` rejects with the order error whenever the PREVIOUS
section id is non-zero and the new id is non-custom and does not exceed
it — so the strictly-increasing order of the claim is enforced only
between consecutive non-custom sections, and a custom section (id 0),
itself accepted at any position and skipped, resets the baseline and
lets a duplicate or out-of-order non-custom id through (see the
counterexample); a well-framed section with unknown id 12 or above is
rejected. -/
theorem vm_c8_amended :
    (∀ bs m, ReadModule bs = .ok m →
        8 ≤ bs.length ∧ littleEndianU32 (bs.take 4) = 0x6d736100
          ∧ littleEndianU32 ((bs.drop 4).take 4) = 1)
      ∧ (∀ m br k id br2, ByteReader.readOne br = .ok (id, br2) →
          k ≠ 0 → k ≥ id → id ≠ 0 →
          readSection m br (some k) = .error .sectionOrder)
      ∧ (∀ m br lastID id br2 dl br3 body br4,
          ByteReader.readOne br = .ok (id, br2) →
          sectionOrderBad lastID id = false →
          lebReadUint32BR br2 = .ok (dl, br3) →
          ByteReader.read br3 dl = .ok (body, br4) →
          12 ≤ id →
          readSection m br lastID = .error .unknownSection)
      ∧ (∀ m br lastID br2 dl br3 body br4,
          ByteReader.readOne br = .ok (0, br2) →
          lebReadUint32BR br2 = .ok (dl, br3) →
          ByteReader.read br3 dl = .ok (body, br4) →
          readSection m br lastID = .ok (0, m, br4)) := by
  refine ⟨?_, ?_, ?_, ?_⟩
  · intro bs m h
    simp only [ReadModule] at h
    cases hm : readMagic ⟨bs, 0⟩ with
    | error e => rw [hm] at h; simp at h
    | ok br =>
      rw [hm] at h
      dsimp only at h
      cases hv : readVersion emptyWModule br with
      | error e => rw [hv] at h; simp at h
      | ok p =>
        obtain ⟨h4, hmag, hbr⟩ := readMagic_ok bs br hm
        subst hbr
        obtain ⟨h8, hver⟩ := readVersion_ok emptyWModule bs p hv
        exact ⟨h8, hmag, hver⟩
  · intro m br k id br2 h1 hk hge hid
    simp only [readSection]
    rw [h1]
    dsimp only
    rw [if_pos (show sectionOrderBad (some k) id = true by
      simp only [sectionOrderBad, Bool.and_eq_true, decide_eq_true_eq]
      exact ⟨⟨hk, hge⟩, hid⟩)]
  · intro m br lastID id br2 dl br3 body br4 h1 hord hleb hread h12
    have hd : dispatchSection m id ⟨body, 0⟩ = .error .unknownSection := by
      obtain ⟨n, rfl⟩ : ∃ n, id = n + 12 := ⟨id - 12, by omega⟩
      rfl
    simp only [readSection]
    rw [h1]
    dsimp only
    rw [if_neg (show ¬sectionOrderBad lastID id = true by rw [hord]; simp)]
    rw [hleb]
    dsimp only
    rw [hread]
    dsimp only
    rw [hd]
  · intro m br lastID br2 dl br3 body br4 h1 hleb hread
    simp only [readSection]
    rw [h1]
    dsimp only
    rw [if_neg (show ¬sectionOrderBad lastID 0 = true by
      cases lastID <;> simp [sectionOrderBad])]
    rw [hleb]
    dsimp only
    rw [hread]
    dsimp only
    rfl

/-- Witness: each hypothesis-bearing conjunct of the amended C8 theorem
applied at a concrete input — the counterexample module for the
magic/version conjunct, a duplicate id 3 after a previous id 3 for the
order conjunct, a well-framed section of id 12 for the unknown-id
conjunct, and a 1-byte custom section after an id-11 section for the
custom conjunct. -/
theorem vm_c8_amended_witness :
    (8 ≤ c8Bytes.length ∧ littleEndianU32 (c8Bytes.take 4) = 0x6d736100
        ∧ littleEndianU32 ((c8Bytes.drop 4).take 4) = 1)
      ∧ readSection emptyWModule ⟨[3, 1, 0], 0⟩ (some 3) = .error .sectionOrder
      ∧ readSection emptyWModule ⟨[12, 0], 0⟩ none = .error .unknownSection
      ∧ readSection emptyWModule ⟨[0, 1, 0xAA], 0⟩ (some 11) =
          .ok (0, emptyWModule, ⟨[0, 1, 0xAA], 3⟩) :=
  ⟨vm_c8_amended.1 c8Bytes
      ⟨1, none, none, some ⟨[]⟩, none, none, none, none, none, none,
       none, none, [], [], [], [[]]⟩ rfl,
   vm_c8_amended.2.1 emptyWModule ⟨[3, 1, 0], 0⟩ 3 3 ⟨[3, 1, 0], 1⟩ rfl
     (by decide) (by decide) (by decide),
   vm_c8_amended.2.2.1 emptyWModule ⟨[12, 0], 0⟩ none 12 ⟨[12, 0], 1⟩ 0
     ⟨[12, 0], 2⟩ [] ⟨[12, 0], 2⟩ rfl rfl rfl rfl (by decide),
   vm_c8_amended.2.2.2 emptyWModule ⟨[0, 1, 0xAA], 0⟩ (some 11) ⟨[0, 1, 0xAA], 1⟩ 1
     ⟨[0, 1, 0xAA], 2⟩ [0xAA] ⟨[0, 1, 0xAA], 3⟩ rfl rfl rfl⟩
